import Mathlib

/-!
# TermFieldMatchData

A shallow embedding of `search::fef::TermFieldMatchData`
(`searchlib/src/vespa/searchlib/fef/termfieldmatchdata.h`): the match record for one
term in one field, with its packed 16-bit id word and the payload union `Features`.

Conventions of the embedding.

* Machine integers are natural numbers. Arguments of the public operations carry their
  C++ type as a bounded type (`uint32_t`, `uint64_t`, `feature_t`); members of the record
  are plain naturals and every store that narrows in C++ is written with an explicit `%`.
* The payload union is its memory image: a natural number read in little-endian byte
  order, byte `k` of the union being `_data / 256 ^ k % 256`. Every member of the union
  is a window of that image, so members that share bytes share them here too. Pointers
  take 8 bytes and both structs are packed, as the source declares them.
* A `feature_t` (binary64) is held as its 64-bit image; the image of `0.0` is `0`.
  Only stores and loads of a raw score occur, no floating point arithmetic.
* Arrays created with `new[]` live in a `FreeStore` that is passed explicitly. An
  operation that dereferences a pointer which is not the address of a live array, or
  indexes past the end of one, or fails an `assert`, returns `none`.
-/

namespace search.fef

abbrev uint32_t := Fin 4294967296

abbrev uint64_t := Fin 18446744073709551616

/-- Modelled from the spec: `feature_t` of `searchlib/common/feature.h` (not among the
sources), a floating point raw score (`RawScore(f64)` in the design notes), kept as the
64-bit image of the binary64 value. -/
abbrev feature_t := Fin 18446744073709551616

/-- Modelled from the spec: the occurrence type `TermFieldMatchDataPosition` (its header is
not among the sources): "an element identifier, a within-element offset, an element weight
(signed integer), and an element length", default-constructible and trivially copyable.
Each attribute is one 32-bit word, in the order of the spec; the weight is kept as the
two's complement image of the signed value. -/
structure TermFieldMatchDataPosition where
  _elementId : uint32_t
  _position : uint32_t
  _elementWeight : uint32_t
  _elementLen : uint32_t
deriving DecidableEq, Repr

namespace TermFieldMatchDataPosition

/-- Modelled from the spec: a default-constructed occurrence. The spec only requires that
one exists; all words are zero here. -/
def default : TermFieldMatchDataPosition :=
  { _elementId := 0, _position := 0, _elementWeight := 0, _elementLen := 0 }

/-- Modelled from the spec: accessor `elementWeight()`, a signed integer. -/
def getElementWeight (p : TermFieldMatchDataPosition) : Int :=
  if p._elementWeight.val < 2147483648 then (p._elementWeight.val : Int)
  else (p._elementWeight.val : Int) - 4294967296

/-- Modelled from the spec: accessor `elementLength()`, an unsigned integer. -/
def getElementLen (p : TermFieldMatchDataPosition) : Nat :=
  p._elementLen.val

end TermFieldMatchDataPosition

/-! ## The payload union `Features` as a memory image -/

namespace Features

/-- Read `width` bytes at byte offset `off` of the image `d`. -/
def load (d off width : Nat) : Nat :=
  d / 256 ^ off % 256 ^ width

/-- Overwrite `width` bytes at byte offset `off` of the image `d` with `v`. -/
def store (d off width v : Nat) : Nat :=
  d % 256 ^ off + (v % 256 ^ width) * 256 ^ off
    + d / 256 ^ (off + width) * 256 ^ (off + width)

/-- Member `feature_t _rawScore`: bytes 0..7. -/
def _rawScore (d : Nat) : Nat := load d 0 8

def set_rawScore (d v : Nat) : Nat := store d 0 8 v

/-- Member `uint64_t _subqueries`: bytes 0..7. -/
def _subqueries (d : Nat) : Nat := load d 0 8

def set_subqueries (d v : Nat) : Nat := store d 0 8 v

/-- Member `_positions._maxElementLength` (`uint16_t`): bytes 0..1 of the packed header. -/
def _maxElementLength (d : Nat) : Nat := load d 0 2

def set_maxElementLength (d v : Nat) : Nat := store d 0 2 v

/-- Member `_positions._allocated` (`uint16_t`): bytes 2..3 of the packed header. -/
def _allocated (d : Nat) : Nat := load d 2 2

def set_allocated (d v : Nat) : Nat := store d 2 2 v

/-- Member `_positions._positions` (a pointer): bytes 4..11 of the packed header. -/
def _positions (d : Nat) : Nat := load d 4 8

def set_positions (d v : Nat) : Nat := store d 4 8 v

/-- Member `_position`: the bytes of one inline occurrence, four words from byte 0. -/
def _position (d : Nat) : TermFieldMatchDataPosition :=
  { _elementId := ⟨load d 0 4, Nat.mod_lt _ (by decide)⟩
    _position := ⟨load d 4 4, Nat.mod_lt _ (by decide)⟩
    _elementWeight := ⟨load d 8 4, Nat.mod_lt _ (by decide)⟩
    _elementLen := ⟨load d 12 4, Nat.mod_lt _ (by decide)⟩ }

def set_position (d : Nat) (p : TermFieldMatchDataPosition) : Nat :=
  store (store (store (store d 0 4 p._elementId.val) 4 4 p._position.val)
    8 4 p._elementWeight.val) 12 4 p._elementLen.val

end Features

/-! ## The free store -/

/-- Arrays of occurrences created by `new[]`, newest first, each under its address. -/
structure FreeStore where
  next : Nat
  blocks : List (Nat × List TermFieldMatchDataPosition)
deriving DecidableEq, Repr

namespace FreeStore

/-- The array found at address `p`, if one is live there. -/
def lookup (h : FreeStore) (p : Nat) : Option (List TermFieldMatchDataPosition) :=
  (h.blocks.find? (fun b => b.1 == p)).map (fun b => b.2)

/-- Allocation `new TermFieldMatchDataPosition[n]` with the first cells then assigned from
`init`: the address handed out fits a 64-bit pointer. -/
def new_array (h : FreeStore) (n : Nat) (init : List TermFieldMatchDataPosition) :
    Nat × FreeStore :=
  let a := h.next % 18446744073709551616
  (a, { next := h.next + 16 * n + 16
        blocks := (a, init.take n
          ++ List.replicate (n - init.length) TermFieldMatchDataPosition.default) :: h.blocks })

/-- Release `delete [] p`. -/
def delete_array (h : FreeStore) (p : Nat) : FreeStore :=
  { h with blocks := h.blocks.eraseP (fun b => b.1 == p) }

/-- Assignment `p[i] = v` in a list of live arrays. -/
def writeBlocks : List (Nat × List TermFieldMatchDataPosition) → Nat → Nat →
    TermFieldMatchDataPosition → Option (List (Nat × List TermFieldMatchDataPosition))
  | [], _, _, _ => none
  | b :: rest, p, i, v =>
    if b.1 == p then
      if i < b.2.length then some ((b.1, b.2.set i v) :: rest) else none
    else (writeBlocks rest p i v).map (fun r => b :: r)

/-- Assignment `p[i] = v`; `none` when `p` is not live or `i` is out of bounds. -/
def write (h : FreeStore) (p i : Nat) (v : TermFieldMatchDataPosition) : Option FreeStore :=
  (writeBlocks h.blocks p i v).map (fun bs => { h with blocks := bs })

end FreeStore

/-! ## The record -/

/-- The data members of `TermFieldMatchData`: `_docId` (`uint32_t`), `_fieldId`
(`uint16_t`, the three upper bits are mode and tag bits), `_sz` (`uint16_t`) and the
image of the union `_data`. -/
structure TermFieldMatchData where
  _docId : Nat
  _fieldId : Nat
  _sz : Nat
  _data : Nat
deriving DecidableEq, Repr

/-- A pointer into the occurrences of a record: `getFixed() + i` or `p + i` for an array
pointer `p`. -/
inductive PositionsIterator where
  | fixed (i : Nat)
  | multiple (p : Nat) (i : Nat)
deriving DecidableEq, Repr

/-- The arguments a `FieldPositionsIterator` is constructed from. -/
structure FieldPositionsIterator where
  len : Nat
  begin : PositionsIterator
  end_ : PositionsIterator
deriving DecidableEq, Repr

namespace TermFieldMatchData

def FIELDID_MASK : Nat := 0x1fff

def isRawScore (t : TermFieldMatchData) : Bool := t._fieldId &&& 0x8000 != 0

def isMultiPos (t : TermFieldMatchData) : Bool := t._fieldId &&& 0x4000 != 0

def empty (t : TermFieldMatchData) : Bool := t._sz == 0

def clear (t : TermFieldMatchData) : TermFieldMatchData := { t with _sz := 0 }

def allocated (t : TermFieldMatchData) : Bool := t.isMultiPos

def getFixed (t : TermFieldMatchData) : TermFieldMatchDataPosition :=
  Features._position t._data

def getMultiple (t : TermFieldMatchData) : Nat :=
  Features._positions t._data

def getElementWeight (t : TermFieldMatchData) (h : FreeStore) : Option Int :=
  if t.empty then some 1
  else if t.allocated then
    ((h.lookup t.getMultiple).bind (fun cells => cells[0]?)).map (fun p => p.getElementWeight)
  else some t.getFixed.getElementWeight

def getMaxElementLength (t : TermFieldMatchData) : Nat :=
  if t.empty then 0
  else if t.allocated then Features._maxElementLength t._data
  else t.getFixed.getElementLen

def begin (t : TermFieldMatchData) : PositionsIterator :=
  if t.allocated then .multiple t.getMultiple 0 else .fixed 0

def end_ (t : TermFieldMatchData) : PositionsIterator :=
  if t.allocated then .multiple t.getMultiple t._sz
  else if t.empty then .fixed 0 else .fixed 1

def size (t : TermFieldMatchData) : Nat := t._sz

def capacity (t : TermFieldMatchData) : Nat :=
  if t.allocated then Features._allocated t._data else 1

/-- The occurrences in the pointer range `[b, e)` of a record: the inline slot is the one
cell at `getFixed()`, an array pointer is read in the free store. An empty range reads
nothing, so it needs no live array. -/
def range (t : TermFieldMatchData) (h : FreeStore) :
    PositionsIterator → PositionsIterator → Option (List TermFieldMatchDataPosition)
  | .fixed i, .fixed j =>
    if i ≤ j ∧ j ≤ 1 then some (if i < j then [t.getFixed] else []) else none
  | .multiple p i, .multiple q j =>
    if p = q ∧ i ≤ j then
      if i = j then some []
      else (h.lookup p).bind (fun cells =>
        if j ≤ cells.length then some ((cells.drop i).take (j - i)) else none)
    else none
  | _, _ => none

/-- The occurrences in `[begin(), end())`. -/
def positions (t : TermFieldMatchData) (h : FreeStore) :
    Option (List TermFieldMatchDataPosition) :=
  t.range h t.begin t.end_

def invalidId : Nat := 0xdeadbeef

/-- Modelled from the spec: the default constructor (defined in termfieldmatchdata.cpp,
not among the sources): "an empty record: zero count, default mode, sentinel fieldId",
the doc id being the "unset" sentinel `invalidId()` and the payload bytes zero. -/
def new : TermFieldMatchData :=
  { _docId := invalidId, _fieldId := FIELDID_MASK, _sz := 0, _data := 0 }

/-- Modelled from the spec: `allocateVector` (declared in the header, defined in
termfieldmatchdata.cpp, not among the sources): "allocate a heap array (initial capacity
≥ 2, e.g. doubling from 1), copy the existing inline occurrence into slot 0", "set the
multiPosition mode bit"; the header `{maxElementLength, allocatedCapacity,
pointer-to-array}` then replaces the inline bytes. -/
def allocateVector (t : TermFieldMatchData) (h : FreeStore) :
    TermFieldMatchData × FreeStore :=
  let a := h.new_array 2 (if t.empty then [] else [t.getFixed])
  let len := if t.empty then 0 else t.getFixed.getElementLen
  ({ t with
      _fieldId := (t._fieldId ||| 0x4000) % 65536
      _data := Features.set_positions
        (Features.set_allocated (Features.set_maxElementLength t._data len) 2) a.1 },
    a.2)

/-- Modelled from the spec: `resizePositionVector` (declared in the header, defined in
termfieldmatchdata.cpp, not among the sources): "grow capacity ... via reallocation,
copying existing elements". The capacity is the 16-bit header member `_allocated`, and
"a heap array of capacity ≥ `count` ... capacity only grows, never shrinks" (§3): the new
array has `sz` cells, held at 65535, the largest capacity the member can state. -/
def resizePositionVector (t : TermFieldMatchData) (h : FreeStore) (sz : Nat) :
    Option (TermFieldMatchData × FreeStore) :=
  match h.lookup t.getMultiple with
  | none => none
  | some old =>
    if t._sz ≤ old.length ∧ t._sz ≤ min sz 65535 then
      let a := (h.delete_array t.getMultiple).new_array (min sz 65535) (old.take t._sz)
      some ({ t with
          _data := Features.set_positions
            (Features.set_allocated t._data (min sz 65535)) a.1 }, a.2)
    else none

/-- Modelled from the spec: `appendPositionToAllocatedVector` (declared in the header,
defined in termfieldmatchdata.cpp, not among the sources): "if `count == capacity`, grow
capacity (geometric growth, e.g. ×2) via reallocation, copying existing elements; append
the new occurrence; increment `count`". The header member `maxElementLength` is "the
maximum element length" of the stored occurrences, so it is raised when the new one is
longer. -/
def appendPositionToAllocatedVector (t : TermFieldMatchData) (h : FreeStore)
    (pos : TermFieldMatchDataPosition) : Option (TermFieldMatchData × FreeStore) :=
  (if t._sz = t.capacity then t.resizePositionVector h (2 * t.capacity)
   else some (t, h)).bind (fun r =>
    let t1 := r.1
    let t2 := if pos.getElementLen > Features._maxElementLength t1._data then
        { t1 with _data := Features.set_maxElementLength t1._data pos.getElementLen }
      else t1
    (r.2.write t2.getMultiple t2._sz pos).map (fun h2 =>
      ({ t2 with _sz := (t2._sz + 1) % 65536 }, h2)))

def reservePositions (t : TermFieldMatchData) (h : FreeStore) (sz : Nat) :
    Option (TermFieldMatchData × FreeStore) :=
  if sz > t.capacity then
    if !t.allocated then
      let r := t.allocateVector h
      if sz ≤ r.1.capacity then some r else r.1.resizePositionVector r.2 sz
    else t.resizePositionVector h sz
  else some (t, h)

def populate_fixed (t : TermFieldMatchData) : Option TermFieldMatchData :=
  if t.allocated then none
  else if t._sz = 0 then
    some { t with
      _data := Features.set_position t._data TermFieldMatchDataPosition.default, _sz := 1 }
  else some t

/-- The constant `IllegalFieldId` comes from `fieldinfo.h`, which is not among the sources:
it is a parameter. The `assert` of the source is the `none` result. -/
def setFieldId (IllegalFieldId : uint32_t) (t : TermFieldMatchData) (fieldId : uint32_t) :
    Option TermFieldMatchData :=
  if fieldId = IllegalFieldId then
    some { t with _fieldId := ((t._fieldId &&& 0xFFFFE000) ||| FIELDID_MASK) % 65536 }
  else if fieldId.val < FIELDID_MASK then
    some { t with _fieldId := ((t._fieldId &&& 0xFFFFE000) ||| fieldId.val) % 65536 }
  else none

def getFieldId (IllegalFieldId : uint32_t) (t : TermFieldMatchData) : Nat :=
  if t._fieldId &&& FIELDID_MASK != FIELDID_MASK then t._fieldId &&& FIELDID_MASK
  else IllegalFieldId.val

def reset (t : TermFieldMatchData) (docId : uint32_t) : TermFieldMatchData :=
  let t1 := { t with _docId := docId.val, _sz := 0 }
  if t1.isRawScore then { t1 with _data := Features.set_rawScore t1._data 0 }
  else if t1.isMultiPos then { t1 with _data := Features.set_maxElementLength t1._data 0 }
  else t1

def resetOnlyDocId (t : TermFieldMatchData) (docId : uint32_t) : TermFieldMatchData :=
  { t with _docId := docId.val }

def enableRawScore (t : TermFieldMatchData) : TermFieldMatchData :=
  { t with _fieldId := (t._fieldId ||| 0x8000) % 65536 }

def setRawScore (t : TermFieldMatchData) (docId : uint32_t) (score : feature_t) :
    TermFieldMatchData :=
  let t1 := (t.resetOnlyDocId docId).enableRawScore
  { t1 with _data := Features.set_rawScore t1._data score.val }

def getRawScore (t : TermFieldMatchData) : Nat :=
  if t.isRawScore then Features._rawScore t._data else 0

def setSubqueries (t : TermFieldMatchData) (docId : uint32_t) (subqueries : uint64_t) :
    TermFieldMatchData :=
  let t1 := t.resetOnlyDocId docId
  { t1 with _data := Features.set_subqueries t1._data subqueries.val }

def getSubqueries (t : TermFieldMatchData) : Nat :=
  if !t.empty || t.isRawScore then 0 else Features._subqueries t._data

def getDocId (t : TermFieldMatchData) : Nat := t._docId

def getWeight (t : TermFieldMatchData) (h : FreeStore) : Option Int :=
  if t._sz = 0 then some 1
  else if t.allocated then
    ((h.lookup t.getMultiple).bind (fun cells => cells[0]?)).map (fun p => p.getElementWeight)
  else some t.getFixed.getElementWeight

def appendPosition (t : TermFieldMatchData) (h : FreeStore)
    (pos : TermFieldMatchDataPosition) : Option (TermFieldMatchData × FreeStore) :=
  if t._sz = 0 ∧ ¬ t.allocated then
    some ({ t with _sz := 1, _data := Features.set_position t._data pos }, h)
  else
    let r := if !t.allocated then t.allocateVector h else (t, h)
    r.1.appendPositionToAllocatedVector r.2 pos

/-- The constant `FieldPositionsIterator::UNKNOWN_LENGTH` comes from
`fieldpositionsiterator.h`, which is not among the sources: it is a parameter. -/
def getIterator (UNKNOWN_LENGTH : Nat) (t : TermFieldMatchData) : FieldPositionsIterator :=
  let len := t.getMaxElementLength
  { len := if len != 0 then len else UNKNOWN_LENGTH, begin := t.begin, end_ := t.end_ }

def isNotNeeded (t : TermFieldMatchData) : Bool := t._fieldId &&& 0x2000 != 0

def tagAsNotNeeded (t : TermFieldMatchData) : TermFieldMatchData :=
  { t with _fieldId := (t._fieldId ||| 0x2000) % 65536 }

def tagAsNeeded (t : TermFieldMatchData) : TermFieldMatchData :=
  { t with _fieldId := (t._fieldId &&& 0xFFFFDFFF) % 65536 }

/-- Appending a sequence of occurrences, one `appendPosition` after the other. -/
def appendPositions (t : TermFieldMatchData) (h : FreeStore) :
    List TermFieldMatchDataPosition → Option (TermFieldMatchData × FreeStore)
  | [] => some (t, h)
  | p :: ps => (t.appendPosition h p).bind (fun r => appendPositions r.1 r.2 ps)

end TermFieldMatchData

/-! ## Predicates and runs used in the statements -/

/-- The record `t` is in heap mode with its array header intact: its occurrences `xs` are
the first cells of a live array of `L` cells at `getMultiple()`, and the header member
`_allocated` is `L`. -/
def HoldsInHeap (t : TermFieldMatchData) (h : FreeStore)
    (xs : List TermFieldMatchDataPosition) (L : Nat) : Prop :=
  t.isMultiPos = true ∧ t._sz = xs.length ∧ Features._allocated t._data = L
    ∧ xs.length ≤ L
    ∧ ∃ cells, h.lookup t.getMultiple = some cells ∧ cells.length = L
        ∧ cells.take xs.length = xs

/-- The record `t` holds the occurrences `xs` where its readers look for them: none, or
the one of the inline slot, or in heap mode the first cells of the live array at
`getMultiple()`, the count not exceeding the capacity the header states. -/
def Holds (t : TermFieldMatchData) (h : FreeStore)
    (xs : List TermFieldMatchDataPosition) : Prop :=
  t._sz = xs.length
    ∧ (t.isMultiPos = false → xs = [] ∨ xs = [t.getFixed])
    ∧ (t.isMultiPos = true → xs.length ≤ Features._allocated t._data
        ∧ (xs = [] ∨ ∃ cells, h.lookup t.getMultiple = some cells
            ∧ xs.length ≤ cells.length ∧ cells.take xs.length = xs))

/-- A call of `reset` or of `appendPosition`. -/
inductive Call where
  | reset (docId : uint32_t)
  | appendPosition (pos : TermFieldMatchDataPosition)
deriving DecidableEq, Repr

/-- One call on a record and the free store. -/
def call (t : TermFieldMatchData) (h : FreeStore) :
    Call → Option (TermFieldMatchData × FreeStore)
  | .reset docId => some (t.reset docId, h)
  | .appendPosition pos => t.appendPosition h pos

/-- A sequence of calls, one after the other. -/
def calls (t : TermFieldMatchData) (h : FreeStore) :
    List Call → Option (TermFieldMatchData × FreeStore)
  | [] => some (t, h)
  | c :: cs => (call t h c).bind (fun r => calls r.1 r.2 cs)

/-- No document of the call sequence takes more than `limit` occurrences, the current
document holding `n` of them before the first call. -/
def withinLimit (limit : Nat) : Nat → List Call → Bool
  | _, [] => true
  | _, .reset _ :: cs => withinLimit limit 0 cs
  | n, .appendPosition _ :: cs => decide (n < limit) && withinLimit limit (n + 1) cs

/-- The pointer difference `e - b` of two pointers into the same storage. -/
def PositionsIterator.distance : PositionsIterator → PositionsIterator → Option Nat
  | .fixed i, .fixed j => if i ≤ j then some (j - i) else none
  | .multiple p i, .multiple q j => if p = q ∧ i ≤ j then some (j - i) else none
  | _, _ => none

/-- A call of one of the public operations that change a record. -/
inductive PublicCall where
  | setFieldId (fieldId : uint32_t)
  | reset (docId : uint32_t)
  | resetOnlyDocId (docId : uint32_t)
  | setRawScore (docId : uint32_t) (score : feature_t)
  | enableRawScore
  | setSubqueries (docId : uint32_t) (subqueries : uint64_t)
  | appendPosition (pos : TermFieldMatchDataPosition)
  | populate_fixed
  | reservePositions (sz : uint64_t)
  | tagAsNotNeeded
  | tagAsNeeded
deriving DecidableEq, Repr

/-- One public call on a record and the free store. -/
def publicCall (IllegalFieldId : uint32_t) (t : TermFieldMatchData) (h : FreeStore) :
    PublicCall → Option (TermFieldMatchData × FreeStore)
  | .setFieldId fieldId =>
    (TermFieldMatchData.setFieldId IllegalFieldId t fieldId).map (fun u => (u, h))
  | .reset docId => some (t.reset docId, h)
  | .resetOnlyDocId docId => some (t.resetOnlyDocId docId, h)
  | .setRawScore docId score => some (t.setRawScore docId score, h)
  | .enableRawScore => some (t.enableRawScore, h)
  | .setSubqueries docId subqueries => some (t.setSubqueries docId subqueries, h)
  | .appendPosition pos => t.appendPosition h pos
  | .populate_fixed => t.populate_fixed.map (fun u => (u, h))
  | .reservePositions sz => t.reservePositions h sz.val
  | .tagAsNotNeeded => some (t.tagAsNotNeeded, h)
  | .tagAsNeeded => some (t.tagAsNeeded, h)

/-- A sequence of public calls, one after the other. -/
def publicCalls (IllegalFieldId : uint32_t) (t : TermFieldMatchData) (h : FreeStore) :
    List PublicCall → Option (TermFieldMatchData × FreeStore)
  | [] => some (t, h)
  | c :: cs => (publicCall IllegalFieldId t h c).bind
      (fun r => publicCalls IllegalFieldId r.1 r.2 cs)

/-- The call, made on the record `t`, keeps the capacity the array header states at or
above the count: it is not a `setRawScore` or `setSubqueries` on a heap record that
stores, in bytes 2..3 of the payload where the header keeps `_allocated`, a number below
the count. -/
def PublicCall.keepsHeader (t : TermFieldMatchData) : PublicCall → Bool
  | .setRawScore _ score => !t.isMultiPos || decide (t._sz ≤ score.val / 65536 % 65536)
  | .setSubqueries _ subqueries =>
    !t.isMultiPos || decide (t._sz ≤ subqueries.val / 65536 % 65536)
  | _ => true

/-- Every call of the sequence keeps the stated capacity at or above the count on the
record it meets. -/
def publicCallsKeepHeader (IllegalFieldId : uint32_t) (t : TermFieldMatchData)
    (h : FreeStore) : List PublicCall → Bool
  | [] => true
  | c :: cs => c.keepsHeader t &&
      match publicCall IllegalFieldId t h c with
      | none => true
      | some r => publicCallsKeepHeader IllegalFieldId r.1 r.2 cs

/-- The largest element length among the occurrences, 0 for none. -/
def maxElementLen : List TermFieldMatchDataPosition → Nat
  | [] => 0
  | p :: ps => max p.getElementLen (maxElementLen ps)

/-! ## Loads and stores of the payload image -/

namespace Features

theorem rawScore_set_rawScore (d v : Nat) :
    _rawScore (set_rawScore d v) = v % 18446744073709551616 := by
  simp only [_rawScore, set_rawScore, load, store]
  norm_num
  omega

theorem subqueries_set_subqueries (d v : Nat) :
    _subqueries (set_subqueries d v) = v % 18446744073709551616 := by
  simp only [_subqueries, set_subqueries, load, store]
  norm_num
  omega

theorem position_set_position (d : Nat) (p : TermFieldMatchDataPosition) :
    _position (set_position d p) = p := by
  obtain ⟨a, b, c, e⟩ := p
  simp only [_position, set_position, load, store]
  norm_num
  refine ⟨?_, ?_, ?_, ?_⟩ <;> apply Fin.ext <;> simp only [] <;> omega

theorem maxElementLength_set_maxElementLength (d v : Nat) :
    _maxElementLength (set_maxElementLength d v) = v % 65536 := by
  simp only [_maxElementLength, set_maxElementLength, load, store]
  norm_num
  omega

theorem allocated_set_maxElementLength (d v : Nat) :
    _allocated (set_maxElementLength d v) = _allocated d := by
  simp only [_allocated, set_maxElementLength, load, store]
  norm_num
  omega

theorem positions_set_maxElementLength (d v : Nat) :
    _positions (set_maxElementLength d v) = _positions d := by
  simp only [_positions, set_maxElementLength, load, store]
  norm_num
  omega

theorem allocated_set_allocated (d v : Nat) :
    _allocated (set_allocated d v) = v % 65536 := by
  simp only [_allocated, set_allocated, load, store]
  norm_num
  omega

theorem maxElementLength_set_allocated (d v : Nat) :
    _maxElementLength (set_allocated d v) = _maxElementLength d := by
  simp only [_maxElementLength, set_allocated, load, store]
  norm_num
  omega

theorem positions_set_allocated (d v : Nat) :
    _positions (set_allocated d v) = _positions d := by
  simp only [_positions, set_allocated, load, store]
  norm_num
  omega

theorem positions_set_positions (d v : Nat) :
    _positions (set_positions d v) = v % 18446744073709551616 := by
  simp only [_positions, set_positions, load, store]
  norm_num
  omega

theorem allocated_set_positions (d v : Nat) :
    _allocated (set_positions d v) = _allocated d := by
  simp only [_allocated, set_positions, load, store]
  norm_num
  omega

theorem maxElementLength_set_positions (d v : Nat) :
    _maxElementLength (set_positions d v) = _maxElementLength d := by
  simp only [_maxElementLength, set_positions, load, store]
  norm_num
  omega

/-- Storing a raw score of zero clears the first two header members as well: they share
bytes 0..3 with it. -/
theorem allocated_set_rawScore_zero (d : Nat) : _allocated (set_rawScore d 0) = 0 := by
  simp only [_allocated, set_rawScore, load, store]
  norm_num
  omega

end Features

/-! ## The mode and tag bits of `_fieldId` -/

theorem and_two_pow_ne_zero (x i : Nat) : (x &&& 2 ^ i != 0) = x.testBit i := by
  rw [Nat.and_two_pow]
  cases x.testBit i <;> simp

theorem testBit_or_two_pow (x i j : Nat) :
    (x ||| 2 ^ i).testBit j = (x.testBit j || decide (i = j)) := by
  rw [Nat.testBit_or, Nat.testBit_two_pow]

namespace TermFieldMatchData

theorem isRawScore_eq (t : TermFieldMatchData) : t.isRawScore = t._fieldId.testBit 15 := by
  have e : (0x8000 : Nat) = 2 ^ 15 := by norm_num
  unfold isRawScore
  rw [e]
  exact and_two_pow_ne_zero _ _

theorem isMultiPos_eq (t : TermFieldMatchData) : t.isMultiPos = t._fieldId.testBit 14 := by
  have e : (0x4000 : Nat) = 2 ^ 14 := by norm_num
  unfold isMultiPos
  rw [e]
  exact and_two_pow_ne_zero _ _

theorem isNotNeeded_eq (t : TermFieldMatchData) : t.isNotNeeded = t._fieldId.testBit 13 := by
  have e : (0x2000 : Nat) = 2 ^ 13 := by norm_num
  unfold isNotNeeded
  rw [e]
  exact and_two_pow_ne_zero _ _

theorem testBit_or_8000 (x j : Nat) :
    ((x ||| 0x8000) % 65536).testBit j
      = (decide (j < 16) && (x.testBit j || decide (15 = j))) := by
  have e : (0x8000 : Nat) = 2 ^ 15 := by norm_num
  have e2 : (65536 : Nat) = 2 ^ 16 := by norm_num
  rw [e, e2, Nat.testBit_mod_two_pow, testBit_or_two_pow]

theorem testBit_or_4000 (x j : Nat) :
    ((x ||| 0x4000) % 65536).testBit j
      = (decide (j < 16) && (x.testBit j || decide (14 = j))) := by
  have e : (0x4000 : Nat) = 2 ^ 14 := by norm_num
  have e2 : (65536 : Nat) = 2 ^ 16 := by norm_num
  rw [e, e2, Nat.testBit_mod_two_pow, testBit_or_two_pow]

/-- The bits of `_fieldId & ~FIELDID_MASK`, with `~FIELDID_MASK` the 32-bit `int`. -/
theorem and_not_mask (x : Nat) :
    x &&& 0xFFFFE000 = 2 ^ 13 * (x % 2 ^ 32 / 2 ^ 13) := by
  apply Nat.eq_of_testBit_eq
  intro i
  have e : (0xFFFFE000 : Nat) = (2 ^ 19 - 1) <<< 13 := by decide
  rw [e, Nat.testBit_and, Nat.testBit_shiftLeft, Nat.testBit_two_pow_sub_one,
    Nat.testBit_mul_pow_two, ← Nat.shiftRight_eq_div_pow, Nat.testBit_shiftRight,
    Nat.testBit_mod_two_pow]
  by_cases h : 13 ≤ i
  · have h3 : 13 + (i - 13) = i := by omega
    by_cases h2 : i < 32
    · have : i - 13 < 19 := by omega
      simp [h, h2, this, h3]
    · have : ¬ (i - 13 < 19) := by omega
      simp [h, h2, this, h3]
  · simp [h]

theorem and_mask (x : Nat) : x &&& FIELDID_MASK = x % 8192 := by
  have e : FIELDID_MASK = 2 ^ 13 - 1 := by decide
  rw [e, Nat.and_pow_two_sub_one_eq_mod]

/-- The low 13 bits after `(_fieldId & ~FIELDID_MASK) | fieldId`, narrowed to 16 bits. -/
theorem mask_of_setFieldId (x y : Nat) (h : y < 8192) :
    ((x &&& 0xFFFFE000) ||| y) % 65536 % 8192 = y := by
  rw [and_not_mask, ← Nat.mul_add_lt_is_or (by omega : y < 2 ^ 13)]
  omega

/-! ## Members after each operation -/

theorem new_isRawScore : TermFieldMatchData.new.isRawScore = false := by decide

theorem new_isMultiPos : TermFieldMatchData.new.isMultiPos = false := by decide

theorem reset_docId (t : TermFieldMatchData) (d : uint32_t) : (t.reset d)._docId = d.val := by
  simp only [reset]
  split
  · rfl
  · split <;> rfl

theorem reset_sz (t : TermFieldMatchData) (d : uint32_t) : (t.reset d)._sz = 0 := by
  simp only [reset]
  split
  · rfl
  · split <;> rfl

theorem reset_fieldId (t : TermFieldMatchData) (d : uint32_t) :
    (t.reset d)._fieldId = t._fieldId := by
  simp only [reset]
  split
  · rfl
  · split <;> rfl

theorem reset_isRawScore (t : TermFieldMatchData) (d : uint32_t) :
    (t.reset d).isRawScore = t.isRawScore := by
  rw [isRawScore_eq, isRawScore_eq, reset_fieldId]

theorem reset_isMultiPos (t : TermFieldMatchData) (d : uint32_t) :
    (t.reset d).isMultiPos = t.isMultiPos := by
  rw [isMultiPos_eq, isMultiPos_eq, reset_fieldId]

theorem reset_data_of_rawScore (t : TermFieldMatchData) (d : uint32_t)
    (hr : t.isRawScore = true) : (t.reset d)._data = Features.set_rawScore t._data 0 := by
  have h1 : ({ t with _docId := d.val, _sz := 0 } : TermFieldMatchData).isRawScore = true := hr
  unfold reset
  simp only [h1, if_true]

theorem reset_data_of_multiPos (t : TermFieldMatchData) (d : uint32_t)
    (hr : t.isRawScore = false) (hm : t.isMultiPos = true) :
    (t.reset d)._data = Features.set_maxElementLength t._data 0 := by
  have h1 : ({ t with _docId := d.val, _sz := 0 } : TermFieldMatchData).isRawScore = false := hr
  have h2 : ({ t with _docId := d.val, _sz := 0 } : TermFieldMatchData).isMultiPos = true := hm
  unfold reset
  simp only [h1, h2, if_true, Bool.false_eq_true, if_false]

theorem reset_data_of_default (t : TermFieldMatchData) (d : uint32_t)
    (hr : t.isRawScore = false) (hm : t.isMultiPos = false) : (t.reset d)._data = t._data := by
  have h1 : ({ t with _docId := d.val, _sz := 0 } : TermFieldMatchData).isRawScore = false := hr
  have h2 : ({ t with _docId := d.val, _sz := 0 } : TermFieldMatchData).isMultiPos = false := hm
  unfold reset
  simp only [h1, h2, Bool.false_eq_true, if_false]

theorem setRawScore_isRawScore (t : TermFieldMatchData) (d : uint32_t) (s : feature_t) :
    (t.setRawScore d s).isRawScore = true := by
  rw [isRawScore_eq]
  show ((t._fieldId ||| 0x8000) % 65536).testBit 15 = true
  rw [testBit_or_8000]
  simp

theorem enableRawScore_isRawScore (t : TermFieldMatchData) :
    t.enableRawScore.isRawScore = true := by
  rw [isRawScore_eq]
  show ((t._fieldId ||| 0x8000) % 65536).testBit 15 = true
  rw [testBit_or_8000]
  simp

theorem setRawScore_isMultiPos (t : TermFieldMatchData) (d : uint32_t) (s : feature_t) :
    (t.setRawScore d s).isMultiPos = t.isMultiPos := by
  rw [isMultiPos_eq, isMultiPos_eq]
  show ((t._fieldId ||| 0x8000) % 65536).testBit 14 = t._fieldId.testBit 14
  rw [testBit_or_8000]
  simp

/-- An empty inline record takes the first occurrence in its own bytes. -/
theorem appendPosition_inline (t : TermFieldMatchData) (h : FreeStore)
    (p : TermFieldMatchDataPosition) (hsz : t._sz = 0) (hm : t.isMultiPos = false) :
    t.appendPosition h p
      = some ({ t with _sz := 1, _data := Features.set_position t._data p }, h) := by
  unfold appendPosition
  rw [if_pos]
  exact ⟨hsz, by simp [allocated, hm]⟩

/-- The range of an inline record with one occurrence. -/
theorem positions_inline (t : TermFieldMatchData) (h : FreeStore) (hsz : t._sz = 1)
    (hm : t.isMultiPos = false) : t.positions h = some [t.getFixed] := by
  simp [positions, range, begin, end_, allocated, hm, TermFieldMatchData.empty, hsz]

/-- The range of a record without occurrences is empty, whatever the mode. -/
theorem positions_of_sz_zero (t : TermFieldMatchData) (h : FreeStore) (hsz : t._sz = 0) :
    t.positions h = some [] := by
  cases hm : t.isMultiPos <;>
    simp [positions, range, begin, end_, allocated, hm, TermFieldMatchData.empty, hsz]

theorem end_eq_begin_of_sz_zero (t : TermFieldMatchData) (hsz : t._sz = 0) :
    t.end_ = t.begin := by
  cases hm : t.isMultiPos <;>
    simp [begin, end_, allocated, hm, TermFieldMatchData.empty, hsz]

theorem getDocId_inline (t : TermFieldMatchData) (p : TermFieldMatchDataPosition) :
    ({ t with _sz := 1, _data := Features.set_position t._data p }
        : TermFieldMatchData).getDocId = t._docId := rfl

/-- An inline record that has just taken `p` holds exactly `p`. -/
theorem inline_single (t : TermFieldMatchData) (h : FreeStore)
    (p : TermFieldMatchDataPosition) (hm : t.isMultiPos = false) :
    ({ t with _sz := 1, _data := Features.set_position t._data p }
        : TermFieldMatchData).positions h = some [p]
      ∧ ({ t with _sz := 1, _data := Features.set_position t._data p }
        : TermFieldMatchData).getWeight h = some p.getElementWeight := by
  have ha : ({ t with _sz := 1, _data := Features.set_position t._data p }
      : TermFieldMatchData).isMultiPos = false := by
    rw [isMultiPos_eq]
    rw [isMultiPos_eq] at hm
    exact hm
  constructor
  · rw [positions_inline _ h rfl ha]
    simp [getFixed, Features.position_set_position]
  · simp [getWeight, allocated, ha, getFixed, Features.position_set_position]

end TermFieldMatchData

/-! ## Arrays in the free store -/

namespace FreeStore

theorem lookup_new_array (h : FreeStore) (n : Nat) (init : List TermFieldMatchDataPosition) :
    (h.new_array n init).2.lookup (h.new_array n init).1
      = some (init.take n
          ++ List.replicate (n - init.length) TermFieldMatchDataPosition.default) := by
  simp [lookup, new_array]

theorem new_array_addr_lt (h : FreeStore) (n : Nat) (init : List TermFieldMatchDataPosition) :
    (h.new_array n init).1 < 18446744073709551616 :=
  Nat.mod_lt _ (by decide)

theorem writeBlocks_of_find (bs : List (Nat × List TermFieldMatchDataPosition)) (p i : Nat)
    (v : TermFieldMatchDataPosition) (cells : List TermFieldMatchDataPosition)
    (hl : (bs.find? (fun b => b.1 == p)).map (fun b => b.2) = some cells)
    (hi : i < cells.length) :
    ∃ bs', writeBlocks bs p i v = some bs'
      ∧ (bs'.find? (fun b => b.1 == p)).map (fun b => b.2) = some (cells.set i v) := by
  induction bs with
  | nil => simp at hl
  | cons b rest ih =>
    by_cases hb : (b.1 == p) = true
    · have hc : b.2 = cells := by simpa [List.find?, hb] using hl
      refine ⟨(b.1, b.2.set i v) :: rest, ?_, ?_⟩
      · simp only [writeBlocks, hb, if_true]
        rw [if_pos (by rw [hc]; exact hi)]
      · simp [List.find?, hb, hc]
    · have hl' : (rest.find? (fun b => b.1 == p)).map (fun b => b.2) = some cells := by
        simpa [List.find?, hb] using hl
      obtain ⟨bs', h1, h2⟩ := ih hl'
      refine ⟨b :: bs', ?_, ?_⟩
      · simp only [writeBlocks, hb]
        simp [h1]
      · simpa [List.find?, hb] using h2

theorem write_of_lookup (h : FreeStore) (p i : Nat) (v : TermFieldMatchDataPosition)
    (cells : List TermFieldMatchDataPosition) (hl : h.lookup p = some cells)
    (hi : i < cells.length) :
    ∃ h', h.write p i v = some h' ∧ h'.lookup p = some (cells.set i v) := by
  obtain ⟨bs', h1, h2⟩ := writeBlocks_of_find h.blocks p i v cells hl hi
  exact ⟨{ h with blocks := bs' }, by simp [write, h1], h2⟩

end FreeStore

theorem take_succ_set (cells : List TermFieldMatchDataPosition) (n : Nat)
    (p : TermFieldMatchDataPosition) (hn : n < cells.length) :
    (cells.set n p).take (n + 1) = cells.take n ++ [p] := by
  induction cells generalizing n with
  | nil => simp at hn
  | cons c cs ih =>
    cases n with
    | zero => simp
    | succ m =>
      have hm : m < cs.length := by simpa using hn
      simp [List.set, List.take, ih m hm]

/-! ## Records in heap mode -/

namespace Features

theorem allocated_lt (d : Nat) : _allocated d < 65536 := by
  simp only [_allocated, load]
  norm_num
  omega

end Features

namespace TermFieldMatchData

theorem capacity_of_multiPos (t : TermFieldMatchData) (hm : t.isMultiPos = true) :
    t.capacity = Features._allocated t._data := by
  simp [capacity, allocated, hm]

theorem capacity_of_holds (t : TermFieldMatchData) (h : FreeStore)
    (xs : List TermFieldMatchDataPosition) (L : Nat) (hh : HoldsInHeap t h xs L) :
    t.capacity = L := by
  rw [capacity_of_multiPos t hh.1, hh.2.2.1]

theorem lt_of_holds (t : TermFieldMatchData) (h : FreeStore)
    (xs : List TermFieldMatchDataPosition) (L : Nat) (hh : HoldsInHeap t h xs L) :
    L < 65536 := by
  rw [← hh.2.2.1]
  exact Features.allocated_lt _

theorem positions_of_holds (t : TermFieldMatchData) (h : FreeStore)
    (xs : List TermFieldMatchDataPosition) (L : Nat) (hh : HoldsInHeap t h xs L) :
    t.positions h = some xs := by
  obtain ⟨hm, hsz, -, hle, cells, hl, hlen, htake⟩ := hh
  by_cases h0 : xs.length = 0
  · have : xs = [] := List.length_eq_zero.mp h0
    rw [positions_of_sz_zero t h (by rw [hsz, h0]), this]
  · have hne : ¬ (0 = xs.length) := by omega
    have hle2 : xs.length ≤ cells.length := by omega
    simp [positions, range, begin, end_, allocated, hm, hne, hl, hle2, hsz, htake]

theorem resizePositionVector_of_holds (t : TermFieldMatchData) (h : FreeStore)
    (xs : List TermFieldMatchDataPosition) (L n : Nat) (hh : HoldsInHeap t h xs L)
    (hn : xs.length ≤ min n 65535) :
    ∃ t1 h1, t.resizePositionVector h n = some (t1, h1)
      ∧ HoldsInHeap t1 h1 xs (min n 65535)
      ∧ t1._docId = t._docId ∧ t1._fieldId = t._fieldId := by
  obtain ⟨hm, hsz, -, hle, cells, hl, hlen, htake⟩ := hh
  have hcond : t._sz ≤ cells.length ∧ t._sz ≤ min n 65535 := by omega
  refine ⟨{ t with
      _data := Features.set_positions (Features.set_allocated t._data (min n 65535))
                ((h.delete_array t.getMultiple).new_array (min n 65535)
                  (cells.take t._sz)).1 },
      ((h.delete_array t.getMultiple).new_array (min n 65535) (cells.take t._sz)).2,
      by simp only [resizePositionVector, hl, if_pos hcond], ?_, rfl, rfl⟩
  refine ⟨?_, hsz, ?_, hn, ?_⟩
  · rw [isMultiPos_eq] at hm ⊢
    exact hm
  · show Features._allocated (Features.set_positions (Features.set_allocated t._data _) _) = _
    rw [Features.allocated_set_positions, Features.allocated_set_allocated]
    omega
  · refine ⟨(cells.take t._sz).take (min n 65535)
        ++ List.replicate (min n 65535 - (cells.take t._sz).length)
          TermFieldMatchDataPosition.default, ?_, ?_, ?_⟩
    · show FreeStore.lookup _ (Features._positions (Features.set_positions _ _)) = _
      rw [Features.positions_set_positions,
        Nat.mod_eq_of_lt (FreeStore.new_array_addr_lt _ _ _)]
      exact FreeStore.lookup_new_array _ _ _
    · simp only [List.length_append, List.length_take, List.length_replicate]
      omega
    · rw [hsz, htake]
      have h1 : xs.take (min n 65535) = xs := List.take_of_length_le hn
      rw [h1, List.take_left']
      rfl

/-- One more occurrence on a heap record with an intact header, a capacity of at least 1
and fewer than 65535 occurrences. -/
theorem appendPositionToAllocatedVector_of_holds (t : TermFieldMatchData) (h : FreeStore)
    (xs : List TermFieldMatchDataPosition) (L : Nat) (p : TermFieldMatchDataPosition)
    (hh : HoldsInHeap t h xs L) (hL : 1 ≤ L) (hlt : xs.length < 65535) :
    ∃ t' h', t.appendPositionToAllocatedVector h p = some (t', h')
      ∧ HoldsInHeap t' h' (xs ++ [p]) (if xs.length = L then min (2 * L) 65535 else L)
      ∧ t'._docId = t._docId ∧ t'._fieldId = t._fieldId := by
  have hm := hh.1
  have hsz := hh.2.1
  have hle := hh.2.2.2.1
  have hcap : t.capacity = L := capacity_of_holds t h xs L hh
  -- the array after the growth step has room for one more
  have grow : ∃ t1 h1, (if t._sz = t.capacity then t.resizePositionVector h (2 * t.capacity)
        else some (t, h)) = some (t1, h1)
      ∧ HoldsInHeap t1 h1 xs (if xs.length = L then min (2 * L) 65535 else L)
      ∧ xs.length < (if xs.length = L then min (2 * L) 65535 else L)
      ∧ t1._docId = t._docId ∧ t1._fieldId = t._fieldId := by
    by_cases hc : xs.length = L
    · obtain ⟨t1, h1', e1, e2, e3, e4⟩ :=
        resizePositionVector_of_holds t h xs L (2 * L) hh (by omega)
      refine ⟨t1, h1', ?_, ?_, ?_, e3, e4⟩
      · rw [if_pos (by rw [hsz, hcap, hc]), hcap]
        exact e1
      · rw [if_pos hc]
        exact e2
      · rw [if_pos hc]
        omega
    · refine ⟨t, h, ?_, ?_, ?_, rfl, rfl⟩
      · rw [if_neg (by rw [hsz, hcap]; exact hc)]
      · rw [if_neg hc]
        exact hh
      · rw [if_neg hc]
        omega
  obtain ⟨t1, h1, e1, ⟨hm1, hsz1, hal1, hle1, cells, hl1, hlen1, htake1⟩, hroom1, ed, ef⟩ := grow
  generalize (if xs.length = L then min (2 * L) 65535 else L) = L1 at *
  -- raising the maximal element length leaves the rest of the header alone
  have hptr : ∀ v, Features._positions (Features.set_maxElementLength t1._data v)
      = t1.getMultiple := fun v => Features.positions_set_maxElementLength _ _
  obtain ⟨h2, w1, w2⟩ := FreeStore.write_of_lookup h1 t1.getMultiple xs.length p cells hl1
    (by omega)
  have hsz' : (xs.length + 1) % 65536 = (xs ++ [p]).length := by
    rw [List.length_append, List.length_singleton]
    omega
  have htk : (cells.set xs.length p).take (xs ++ [p]).length = xs ++ [p] := by
    rw [List.length_append, List.length_singleton, take_succ_set cells _ p (by omega), htake1]
  have hlen' : (cells.set xs.length p).length = L1 := by rw [List.length_set, hlen1]
  have hle' : (xs ++ [p]).length ≤ L1 := by
    rw [List.length_append, List.length_singleton]
    omega
  unfold appendPositionToAllocatedVector
  rw [e1]
  by_cases hmax : p.getElementLen > Features._maxElementLength t1._data
  · refine ⟨{ t1 with
        _data := Features.set_maxElementLength t1._data p.getElementLen,
        _sz := (xs.length + 1) % 65536 }, h2, ?_, ?_, ed, ef⟩
    · simp only [Option.bind, if_pos hmax, getMultiple, hptr]
      simp only [getMultiple] at w1
      rw [hsz1, w1]
      rfl
    · refine ⟨?_, hsz', ?_, hle', _, ?_, hlen', htk⟩
      · rw [isMultiPos_eq] at hm1 ⊢
        exact hm1
      · show Features._allocated (Features.set_maxElementLength t1._data _) = _
        rw [Features.allocated_set_maxElementLength, hal1]
      · show FreeStore.lookup h2 (Features._positions (Features.set_maxElementLength _ _)) = _
        rw [hptr]
        exact w2
  · refine ⟨{ t1 with _sz := (xs.length + 1) % 65536 }, h2, ?_, ?_, ed, ef⟩
    · simp only [Option.bind, if_neg hmax]
      rw [hsz1, w1]
      rfl
    · refine ⟨?_, hsz', hal1, hle', _, w2, hlen', htk⟩
      rw [isMultiPos_eq] at hm1 ⊢
      exact hm1

end TermFieldMatchData

/-! ## What a successful array operation leaves in the record and the store -/

namespace FreeStore

theorem writeBlocks_some (bs bs' : List (Nat × List TermFieldMatchDataPosition)) (p i : Nat)
    (v : TermFieldMatchDataPosition) (e : writeBlocks bs p i v = some bs') :
    ∃ cells, (bs.find? (fun b => b.1 == p)).map (fun b => b.2) = some cells
      ∧ i < cells.length
      ∧ (bs'.find? (fun b => b.1 == p)).map (fun b => b.2) = some (cells.set i v) := by
  induction bs generalizing bs' with
  | nil => simp [writeBlocks] at e
  | cons b rest ih =>
    by_cases hb : (b.1 == p) = true
    · simp only [writeBlocks, hb, if_true] at e
      by_cases hi : i < b.2.length
      · rw [if_pos hi] at e
        cases e
        exact ⟨b.2, by simp [List.find?, hb], hi, by simp [List.find?, hb]⟩
      · rw [if_neg hi] at e
        cases e
    · simp only [writeBlocks, hb] at e
      cases hr : writeBlocks rest p i v with
      | none => simp [hr] at e
      | some r =>
        simp only [hr, Option.map, Bool.false_eq_true, if_false, Option.some.injEq] at e
        subst e
        obtain ⟨cells, h1, h2, h3⟩ := ih r hr
        exact ⟨cells, by simpa [List.find?, hb] using h1, h2,
          by simpa [List.find?, hb] using h3⟩

/-- A successful assignment `p[i] = v` went to a live array with `i` in bounds. -/
theorem write_some (h h' : FreeStore) (p i : Nat) (v : TermFieldMatchDataPosition)
    (e : h.write p i v = some h') :
    ∃ cells, h.lookup p = some cells ∧ i < cells.length
      ∧ h'.lookup p = some (cells.set i v) := by
  unfold write at e
  cases hw : writeBlocks h.blocks p i v with
  | none => simp [hw] at e
  | some bs' =>
    simp only [hw, Option.map, Option.some.injEq] at e
    subst e
    exact writeBlocks_some h.blocks bs' p i v hw

end FreeStore

namespace TermFieldMatchData

theorem resizePositionVector_some (t t' : TermFieldMatchData) (h h' : FreeStore) (n : Nat)
    (e : t.resizePositionVector h n = some (t', h')) :
    t'._fieldId = t._fieldId ∧ t'._sz = t._sz ∧ t'._docId = t._docId
      ∧ Features._allocated t'._data = min n 65535
      ∧ Features._maxElementLength t'._data = Features._maxElementLength t._data
      ∧ t._sz ≤ min n 65535
      ∧ ∃ old cells, h.lookup t.getMultiple = some old ∧ t._sz ≤ old.length
          ∧ h'.lookup t'.getMultiple = some cells ∧ cells.length = min n 65535
          ∧ cells.take t._sz = old.take t._sz := by
  unfold resizePositionVector at e
  split at e
  · cases e
  · rename_i old hl
    split at e
    · rename_i hcond
      simp only [Option.some.injEq, Prod.mk.injEq] at e
      obtain ⟨e1, e2⟩ := e
      subst e1
      subst e2
      refine ⟨rfl, rfl, rfl, ?_, ?_, hcond.2, old,
        (old.take t._sz).take (min n 65535)
          ++ List.replicate (min n 65535 - (old.take t._sz).length)
            TermFieldMatchDataPosition.default, hl, hcond.1, ?_, ?_, ?_⟩
      · show Features._allocated (Features.set_positions (Features.set_allocated _ _) _) = _
        rw [Features.allocated_set_positions, Features.allocated_set_allocated]
        omega
      · show Features._maxElementLength
          (Features.set_positions (Features.set_allocated _ _) _) = _
        rw [Features.maxElementLength_set_positions, Features.maxElementLength_set_allocated]
      · show FreeStore.lookup _ (Features._positions (Features.set_positions _ _)) = _
        rw [Features.positions_set_positions,
          Nat.mod_eq_of_lt (FreeStore.new_array_addr_lt _ _ _)]
        exact FreeStore.lookup_new_array _ _ _
      · simp only [List.length_append, List.length_take, List.length_replicate]
        omega
      · have hl1 : (old.take t._sz).length = t._sz := by
          rw [List.length_take]
          omega
        have h1 : (old.take t._sz).take (min n 65535) = old.take t._sz :=
          List.take_of_length_le (by omega)
        rw [h1, List.take_append_of_le_length (by omega)]
        exact List.take_of_length_le (by omega)
    · cases e

/-- What a successful `appendPositionToAllocatedVector` leaves: the members, and the
array that now holds the new occurrence after the old ones. -/
theorem appendPositionToAllocatedVector_some (t t' : TermFieldMatchData) (h h' : FreeStore)
    (p : TermFieldMatchDataPosition)
    (e : t.appendPositionToAllocatedVector h p = some (t', h')) :
    t'._fieldId = t._fieldId ∧ t'._docId = t._docId ∧ t'._sz = (t._sz + 1) % 65536
      ∧ Features._allocated t'._data
          = (if t._sz = t.capacity then min (2 * t.capacity) 65535
             else Features._allocated t._data)
      ∧ Features._maxElementLength t'._data
          = (if p.getElementLen > Features._maxElementLength t._data
             then p.getElementLen % 65536 else Features._maxElementLength t._data)
      ∧ ∃ old cells, h.lookup t.getMultiple = some old ∧ t._sz ≤ old.length
          ∧ h'.lookup t'.getMultiple = some cells ∧ t._sz < cells.length
          ∧ cells.take (t._sz + 1) = old.take t._sz ++ [p]
          ∧ cells.length
              = (if t._sz = t.capacity then min (2 * t.capacity) 65535 else old.length) := by
  unfold appendPositionToAllocatedVector at e
  cases hg : (if t._sz = t.capacity then t.resizePositionVector h (2 * t.capacity)
      else some (t, h)) with
  | none =>
    rw [hg] at e
    cases e
  | some r =>
    rw [hg] at e
    simp only [Option.bind] at e
    -- the write, through the pointer the growth step left
    have wr : ∃ h2, r.2.write r.1.getMultiple r.1._sz p = some h2 ∧ h' = h2
        ∧ t'._fieldId = r.1._fieldId ∧ t'._docId = r.1._docId
        ∧ t'._sz = (r.1._sz + 1) % 65536
        ∧ Features._allocated t'._data = Features._allocated r.1._data
        ∧ Features._maxElementLength t'._data
            = (if p.getElementLen > Features._maxElementLength r.1._data
               then p.getElementLen % 65536 else Features._maxElementLength r.1._data)
        ∧ t'.getMultiple = r.1.getMultiple := by
      by_cases hmax : p.getElementLen > Features._maxElementLength r.1._data
      · rw [if_pos hmax] at e
        have hptr : getMultiple { r.1 with
            _data := Features.set_maxElementLength r.1._data p.getElementLen }
            = r.1.getMultiple := Features.positions_set_maxElementLength _ _
        rw [hptr] at e
        cases hw : r.2.write r.1.getMultiple r.1._sz p with
        | none =>
          have hw' : r.2.write r.1.getMultiple
              ({ r.1 with _data := Features.set_maxElementLength r.1._data p.getElementLen }
                : TermFieldMatchData)._sz p = none := hw
          simp only [hw', Option.map] at e
          cases e
        | some h2 =>
          have hw' : r.2.write r.1.getMultiple
              ({ r.1 with _data := Features.set_maxElementLength r.1._data p.getElementLen }
                : TermFieldMatchData)._sz p = some h2 := hw
          simp only [hw', Option.map, Option.some.injEq, Prod.mk.injEq] at e
          obtain ⟨e1, e2⟩ := e
          subst e1
          refine ⟨h2, rfl, e2.symm, rfl, rfl, rfl, ?_, ?_, hptr⟩
          · exact Features.allocated_set_maxElementLength _ _
          · rw [if_pos hmax]
            exact Features.maxElementLength_set_maxElementLength _ _
      · rw [if_neg hmax] at e
        cases hw : r.2.write r.1.getMultiple r.1._sz p with
        | none =>
          simp only [hw, Option.map] at e
          cases e
        | some h2 =>
          simp only [hw, Option.map, Option.some.injEq, Prod.mk.injEq] at e
          obtain ⟨e1, e2⟩ := e
          subst e1
          exact ⟨h2, rfl, e2.symm, rfl, rfl, rfl, rfl, by rw [if_neg hmax], rfl⟩
    obtain ⟨h2, hw, eh, w1, w2, w3, w4, w5, w6⟩ := wr
    clear e
    subst eh
    obtain ⟨cells, c1, c2, c3⟩ := FreeStore.write_some r.2 h' _ _ p hw
    by_cases hc : t._sz = t.capacity
    · rw [if_pos hc] at hg
      obtain ⟨g1, g2, g3, g4, g5, g6, old, cs, o1, o2, o3, o4, o5⟩ :=
        resizePositionVector_some t r.1 h r.2 _ hg
      have hcs : cells = cs := by
        rw [o3] at c1
        exact (Option.some.inj c1).symm
      subst hcs
      rw [g2] at c2 c3 w3
      refine ⟨w1.trans g1, w2.trans g3, w3, ?_, ?_, old, cells.set t._sz p, o1, o2, ?_, ?_,
        ?_, ?_⟩
      · rw [if_pos hc, w4, g4]
      · rw [w5, g5]
      · rw [w6, c3]
      · rw [List.length_set]
        exact c2
      · rw [take_succ_set cells _ p c2, o5]
      · rw [if_pos hc, List.length_set, o4]
    · rw [if_neg hc] at hg
      cases hg
      refine ⟨w1, w2, w3, ?_, w5, cells, cells.set t._sz p, c1, Nat.le_of_lt c2, ?_, ?_, ?_,
        ?_⟩
      · rw [if_neg hc, w4]
      · rw [w6, c3]
      · rw [List.length_set]
        exact c2
      · rw [take_succ_set cells _ p c2]
      · rw [if_neg hc, List.length_set]

theorem allocateVector_members (t : TermFieldMatchData) (h : FreeStore) :
    (t.allocateVector h).1._fieldId = (t._fieldId ||| 0x4000) % 65536
      ∧ (t.allocateVector h).1._sz = t._sz
      ∧ Features._allocated (t.allocateVector h).1._data = 2
      ∧ Features._maxElementLength (t.allocateVector h).1._data
          = (if t.empty then 0 else t.getFixed.getElementLen) % 65536 := by
  refine ⟨rfl, rfl, ?_, ?_⟩
  · show Features._allocated (Features.set_positions (Features.set_allocated _ 2) _) = _
    rw [Features.allocated_set_positions, Features.allocated_set_allocated]
  · show Features._maxElementLength (Features.set_positions (Features.set_allocated
      (Features.set_maxElementLength _ _) 2) _) = _
    rw [Features.maxElementLength_set_positions, Features.maxElementLength_set_allocated,
      Features.maxElementLength_set_maxElementLength]

theorem allocateVector_isMultiPos (t : TermFieldMatchData) (h : FreeStore) :
    (t.allocateVector h).1.isMultiPos = true := by
  rw [isMultiPos_eq]
  show ((t._fieldId ||| 0x4000) % 65536).testBit 14 = true
  rw [testBit_or_4000]
  simp

theorem isRawScore_of_fieldId_or (t u : TermFieldMatchData)
    (hf : u._fieldId = (t._fieldId ||| 0x4000) % 65536) : u.isRawScore = t.isRawScore := by
  rw [isRawScore_eq, isRawScore_eq, hf, testBit_or_4000]
  simp

theorem isRawScore_of_fieldId (t u : TermFieldMatchData) (hf : u._fieldId = t._fieldId) :
    u.isRawScore = t.isRawScore := by
  rw [isRawScore_eq, isRawScore_eq, hf]

theorem allocateVector_isRawScore (t : TermFieldMatchData) (h : FreeStore) :
    (t.allocateVector h).1.isRawScore = t.isRawScore :=
  isRawScore_of_fieldId_or t _ rfl

/-- The array `allocateVector` leaves: two cells, the first being the inline occurrence
when there is one. -/
theorem allocateVector_lookup (t : TermFieldMatchData) (h : FreeStore) :
    (t.allocateVector h).2.lookup (t.allocateVector h).1.getMultiple
      = some ((if t.empty then [] else [t.getFixed]).take 2
          ++ List.replicate (2 - (if t.empty then [] else [t.getFixed]).length)
            TermFieldMatchDataPosition.default) := by
  show FreeStore.lookup (h.new_array 2 (if t.empty then [] else [t.getFixed])).2
    (Features._positions (Features.set_positions _ _)) = _
  rw [Features.positions_set_positions,
    Nat.mod_eq_of_lt (FreeStore.new_array_addr_lt _ _ _), FreeStore.lookup_new_array]

end TermFieldMatchData

/-! ## Sequences of `appendPosition` -/

namespace TermFieldMatchData

theorem appendPosition_heap (t : TermFieldMatchData) (h : FreeStore)
    (p : TermFieldMatchDataPosition) (hm : t.isMultiPos = true) :
    t.appendPosition h p = t.appendPositionToAllocatedVector h p := by
  unfold appendPosition
  rw [if_neg (by simp [allocated, hm])]
  simp [allocated, hm]

/-- The second occurrence of an inline record: the array is allocated first. -/
theorem appendPosition_second (t : TermFieldMatchData) (h : FreeStore)
    (p : TermFieldMatchDataPosition) (hsz : t._sz ≠ 0) (hm : t.isMultiPos = false) :
    t.appendPosition h p
      = (t.allocateVector h).1.appendPositionToAllocatedVector (t.allocateVector h).2 p := by
  unfold appendPosition
  rw [if_neg (by omega)]
  simp [allocated, hm]

theorem allocateVector_holds (t : TermFieldMatchData) (h : FreeStore) (hsz : t._sz = 1) :
    HoldsInHeap (t.allocateVector h).1 (t.allocateVector h).2 [t.getFixed] 2
      ∧ (t.allocateVector h).1._docId = t._docId
      ∧ (t.allocateVector h).1._fieldId = (t._fieldId ||| 0x4000) % 65536 := by
  have he : t.empty = false := by simp [TermFieldMatchData.empty, hsz]
  refine ⟨⟨allocateVector_isMultiPos t h, hsz, (allocateVector_members t h).2.2.1, by simp,
    [t.getFixed, TermFieldMatchDataPosition.default], ?_, rfl, rfl⟩, rfl, rfl⟩
  rw [allocateVector_lookup]
  simp [he]

/-- The second `appendPosition` on an inline record puts it in heap mode, in an array of
two cells. -/
theorem appendPosition_second_holds (t : TermFieldMatchData) (h : FreeStore)
    (q : TermFieldMatchDataPosition) (hsz : t._sz = 1) (hm : t.isMultiPos = false) :
    ∃ t2 h2, t.appendPosition h q = some (t2, h2) ∧ HoldsInHeap t2 h2 [t.getFixed, q] 2
      ∧ t2._docId = t._docId ∧ t2.isRawScore = t.isRawScore := by
  obtain ⟨ha, had, haf⟩ := allocateVector_holds t h hsz
  obtain ⟨t2, h2, e2, hh2, ed2, ef2⟩ :=
    appendPositionToAllocatedVector_of_holds _ _ [t.getFixed] 2 q ha (by omega) (by simp)
  refine ⟨t2, h2, ?_, ?_, ed2.trans had, ?_⟩
  · rw [appendPosition_second t h q (by omega) hm]
    exact e2
  · simpa using hh2
  · rw [isRawScore_of_fieldId _ t2 ef2]
    exact isRawScore_of_fieldId_or t _ haf

/-- Appending a sequence to a heap record with an intact header, up to 65535 occurrences
in all. -/
theorem appendPositions_of_holds (ps : List TermFieldMatchDataPosition) :
    ∀ (t : TermFieldMatchData) (h : FreeStore) (xs : List TermFieldMatchDataPosition)
      (L : Nat), HoldsInHeap t h xs L → 1 ≤ L → xs.length + ps.length ≤ 65535 →
      ∃ t' h' L', t.appendPositions h ps = some (t', h') ∧ HoldsInHeap t' h' (xs ++ ps) L'
        ∧ L ≤ L' ∧ t'._docId = t._docId ∧ t'._fieldId = t._fieldId := by
  induction ps with
  | nil =>
    intro t h xs L hh _ _
    exact ⟨t, h, L, rfl, by rw [List.append_nil]; exact hh, Nat.le_refl _, rfl, rfl⟩
  | cons p ps ih =>
    intro t h xs L hh hL hlen
    rw [List.length_cons] at hlen
    obtain ⟨t1, h1', e1, hh1, ed1, ef1⟩ :=
      appendPositionToAllocatedVector_of_holds t h xs L p hh hL (by omega)
    have hL1 : L ≤ (if xs.length = L then min (2 * L) 65535 else L) := by
      have := lt_of_holds t h xs L hh
      split <;> omega
    obtain ⟨t', h', L', e2, hh2, hL2, ed2, ef2⟩ := ih t1 h1' (xs ++ [p]) _ hh1
      (by omega) (by simp; omega)
    refine ⟨t', h', L', ?_, ?_, by omega, ed2.trans ed1, ef2.trans ef1⟩
    · simp only [appendPositions]
      rw [appendPosition_heap t h p hh.1, e1]
      exact e2
    · rw [List.append_assoc] at hh2
      exact hh2

/-- Appending a sequence of up to 65535 occurrences to an empty inline record. -/
theorem appendPositions_of_empty (t : TermFieldMatchData) (h : FreeStore)
    (ps : List TermFieldMatchDataPosition) (hsz : t._sz = 0) (hm : t.isMultiPos = false)
    (hlen : ps.length ≤ 65535) :
    ∃ t' h', t.appendPositions h ps = some (t', h') ∧ t'.size = ps.length
      ∧ t'.positions h' = some ps ∧ t'._docId = t._docId
      ∧ (2 ≤ ps.length → ∃ L', HoldsInHeap t' h' ps L' ∧ 2 ≤ L') := by
  match ps, hlen with
  | [], _ =>
    exact ⟨t, h, rfl, hsz, positions_of_sz_zero t h hsz, rfl, fun h2 => by simp at h2⟩
  | [p], _ =>
    have hs := inline_single t h p hm
    exact ⟨{ t with _sz := 1, _data := Features.set_position t._data p }, h,
      by simp only [appendPositions, appendPosition_inline t h p hsz hm]; rfl,
      rfl, hs.1, rfl, fun h2 => by simp at h2⟩
  | p :: q :: rest, hlen =>
    have hm1 : ({ t with _sz := 1, _data := Features.set_position t._data p }
        : TermFieldMatchData).isMultiPos = false := by
      rw [isMultiPos_eq] at hm ⊢
      exact hm
    have hfix : ({ t with _sz := 1, _data := Features.set_position t._data p }
        : TermFieldMatchData).getFixed = p := Features.position_set_position _ _
    obtain ⟨t2, h2, e2, hh2, ed2, -⟩ := appendPosition_second_holds
      { t with _sz := 1, _data := Features.set_position t._data p } h q rfl hm1
    rw [hfix] at hh2
    simp only [List.length_cons] at hlen
    obtain ⟨t', h', L', e3, hh3, hL3, ed3, -⟩ := appendPositions_of_holds rest t2 h2
      [p, q] 2 hh2 (by omega) (by simp; omega)
    have hh4 : HoldsInHeap t' h' (p :: q :: rest) L' := by simpa using hh3
    refine ⟨t', h', ?_, ?_, positions_of_holds t' h' _ L' hh4, ?_, fun _ => ⟨L', hh4, hL3⟩⟩
    · simp only [appendPositions, appendPosition_inline t h p hsz hm, Option.bind]
      rw [e2]
      exact e3
    · exact hh4.2.1
    · rw [ed3, ed2]

end TermFieldMatchData

/-! ## What the appends that succeed leave, on any record -/

namespace TermFieldMatchData

theorem holds_reset (t : TermFieldMatchData) (h : FreeStore) (d : uint32_t) :
    Holds (t.reset d) h [] :=
  ⟨reset_sz t d, fun _ => Or.inl rfl, fun _ => ⟨Nat.zero_le _, Or.inl rfl⟩⟩

theorem positions_of_Holds (t : TermFieldMatchData) (h : FreeStore)
    (xs : List TermFieldMatchDataPosition) (hh : Holds t h xs) :
    t.size = xs.length ∧ t.positions h = some xs := by
  obtain ⟨hsz, hi, hp⟩ := hh
  refine ⟨hsz, ?_⟩
  by_cases h0 : xs.length = 0
  · have : xs = [] := List.length_eq_zero.mp h0
    rw [positions_of_sz_zero t h (by rw [hsz, h0]), this]
  · have hne : xs ≠ [] := fun e => h0 (by rw [e]; rfl)
    cases hm : t.isMultiPos with
    | false =>
      rcases hi hm with e | e
      · exact absurd e hne
      · have h1 : t._sz = 1 := by rw [hsz, e]; rfl
        rw [positions_inline t h h1 hm]
        exact congrArg some e.symm
    | true =>
      obtain ⟨-, hc⟩ := hp hm
      rcases hc with e | ⟨cells, hl, hle, htake⟩
      · exact absurd e hne
      · have hne2 : ¬ (0 = xs.length) := by omega
        simp [positions, range, begin, end_, allocated, hm, hne2, hl, hle, hsz, htake]

/-- A successful `appendPosition` adds its occurrence after the ones held. -/
theorem holds_appendPosition (t t' : TermFieldMatchData) (h h' : FreeStore)
    (xs : List TermFieldMatchDataPosition) (p : TermFieldMatchDataPosition)
    (hh : Holds t h xs) (e : t.appendPosition h p = some (t', h')) :
    Holds t' h' (xs ++ [p]) := by
  obtain ⟨hsz, hi, hp⟩ := hh
  cases hm : t.isMultiPos with
  | false =>
    by_cases h0 : t._sz = 0
    · rw [appendPosition_inline t h p h0 hm] at e
      simp only [Option.some.injEq, Prod.mk.injEq] at e
      obtain ⟨e1, e2⟩ := e
      subst e1
      subst e2
      have hx : xs = [] := List.length_eq_zero.mp (by omega)
      subst hx
      have hm1 : ({ t with _sz := 1, _data := Features.set_position t._data p }
          : TermFieldMatchData).isMultiPos = false := by
        rw [isMultiPos_eq] at hm ⊢
        exact hm
      refine ⟨rfl, fun _ => Or.inr ?_, fun hc => ?_⟩
      · show [p] = [Features._position (Features.set_position t._data p)]
        rw [Features.position_set_position]
      · rw [hm1] at hc
        cases hc
    · have hx : xs = [t.getFixed] := by
        rcases hi hm with e0 | e0
        · rw [e0] at hsz
          exact absurd hsz h0
        · exact e0
      have h1 : t._sz = 1 := by rw [hsz, hx]; rfl
      rw [appendPosition_second t h p h0 hm] at e
      obtain ⟨f1, -, f3, f4, -, old, cells, o1, -, o3, o4, o5, o6⟩ :=
        appendPositionToAllocatedVector_some _ t' _ h' p e
      have ha := allocateVector_members t h
      have hma := allocateVector_isMultiPos t h
      have hcap : (t.allocateVector h).1.capacity = 2 := by
        rw [capacity_of_multiPos _ hma, ha.2.2.1]
      rw [ha.2.1, h1] at f3 o4 o5
      rw [ha.2.1, h1, hcap, if_neg (by omega)] at f4 o6
      have hm' : t'.isMultiPos = true := by
        rw [isMultiPos_eq, f1, ← isMultiPos_eq]
        exact hma
      have hold : old = [t.getFixed, TermFieldMatchDataPosition.default] := by
        rw [allocateVector_lookup] at o1
        have he : t.empty = false := by simp [TermFieldMatchData.empty, h1]
        simp [he] at o1
        exact o1.symm
      have hlen : cells.length = 2 := by rw [o6, hold]; rfl
      have hxs : xs ++ [p] = [t.getFixed, p] := by rw [hx]; rfl
      refine ⟨by rw [f3, hxs]; rfl, fun hc => ?_, fun _ => ⟨?_, Or.inr ⟨cells, o3, ?_, ?_⟩⟩⟩
      · rw [hm'] at hc
        cases hc
      · rw [f4, ha.2.2.1, hxs]
        exact Nat.le_refl _
      · rw [hxs, hlen]
        exact Nat.le_refl _
      · rw [hxs]
        show cells.take 2 = _
        rw [o5, hold]
        rfl
  | true =>
    rw [appendPosition_heap t h p hm] at e
    obtain ⟨f1, -, f3, f4, -, old, cells, o1, o2, o3, o4, o5, o6⟩ :=
      appendPositionToAllocatedVector_some t t' h h' p e
    obtain ⟨hle, hc⟩ := hp hm
    have hal := Features.allocated_lt t._data
    have hcap := capacity_of_multiPos t hm
    have hm' : t'.isMultiPos = true := by
      rw [isMultiPos_eq, f1, ← isMultiPos_eq]
      exact hm
    have hlt : t._sz + 1 ≤ Features._allocated t'._data ∧ t._sz + 1 < 65536 := by
      rw [f4]
      split at o6 <;> rename_i hcase
      · rw [if_pos hcase]
        omega
      · rw [if_neg hcase]
        omega
    have htake : old.take t._sz = xs := by
      rcases hc with e0 | ⟨cs, c1, c2, c3⟩
      · subst e0
        rw [hsz]
        rfl
      · have : old = cs := by
          rw [o1] at c1
          exact Option.some.inj c1
        subst this
        rw [hsz]
        exact c3
    have hl1 : (xs ++ [p]).length = t._sz + 1 := by
      rw [List.length_append, List.length_singleton, hsz]
    refine ⟨by rw [f3, hl1, Nat.mod_eq_of_lt hlt.2], fun hc2 => ?_,
      fun _ => ⟨by rw [hl1]; exact hlt.1, Or.inr ⟨cells, o3, by rw [hl1]; exact o4, ?_⟩⟩⟩
    · rw [hm'] at hc2
      cases hc2
    · rw [hl1, o5, htake]

/-- The appends that succeed leave exactly the occurrences appended, in append order. -/
theorem holds_appendPositions (ps : List TermFieldMatchDataPosition) :
    ∀ (t t' : TermFieldMatchData) (h h' : FreeStore)
      (xs : List TermFieldMatchDataPosition), Holds t h xs →
      t.appendPositions h ps = some (t', h') → Holds t' h' (xs ++ ps) := by
  induction ps with
  | nil =>
    intro t t' h h' xs hh e
    have e' : some (t, h) = some (t', h') := e
    simp only [Option.some.injEq, Prod.mk.injEq] at e'
    obtain ⟨e1, e2⟩ := e'
    subst e1
    subst e2
    rw [List.append_nil]
    exact hh
  | cons p ps ih =>
    intro t t' h h' xs hh e
    cases hc : t.appendPosition h p with
    | none =>
      simp only [appendPositions, hc, Option.bind] at e
      cases e
    | some r =>
      simp only [appendPositions, hc, Option.bind] at e
      have h1 := holds_appendPosition t r.1 h r.2 xs p hh hc
      have h2 := ih r.1 t' r.2 h' (xs ++ [p]) h1 e
      rw [List.append_assoc] at h2
      exact h2

end TermFieldMatchData

/-! ## Sequences of `reset` and `appendPosition` -/

namespace TermFieldMatchData

/-- After `reset` a heap record that is not in raw-score mode keeps its array and the
size of it; it holds no occurrence. -/
theorem reset_holds (t : TermFieldMatchData) (h : FreeStore)
    (xs : List TermFieldMatchDataPosition) (L : Nat) (d : uint32_t)
    (hh : HoldsInHeap t h xs L) (hr : t.isRawScore = false) :
    HoldsInHeap (t.reset d) h [] L := by
  obtain ⟨hm, -, hal, -, cells, hl, hlen, -⟩ := hh
  have hd := reset_data_of_multiPos t d hr hm
  refine ⟨by rw [reset_isMultiPos, hm], reset_sz t d, ?_, Nat.zero_le _, cells, ?_, hlen, rfl⟩
  · rw [hd, Features.allocated_set_maxElementLength, hal]
  · show FreeStore.lookup h (Features._positions (t.reset d)._data) = _
    rw [hd, Features.positions_set_maxElementLength]
    exact hl

/-- A successful `appendPosition` on a heap record with an intact header found room for
the count: fewer than 65535 occurrences were held. -/
theorem lt_of_appendPosition_some (t t' : TermFieldMatchData) (h h' : FreeStore)
    (xs : List TermFieldMatchDataPosition) (L : Nat) (p : TermFieldMatchDataPosition)
    (hh : HoldsInHeap t h xs L) (e : t.appendPosition h p = some (t', h')) :
    xs.length < 65535 := by
  rw [appendPosition_heap t h p hh.1] at e
  obtain ⟨-, -, -, -, -, old, cells, o1, -, -, o4, -, o6⟩ :=
    appendPositionToAllocatedVector_some t t' h h' p e
  have hlt := lt_of_holds t h xs L hh
  obtain ⟨-, hsz, -, -, cs, c1, c2, -⟩ := hh
  have : old = cs := by
    rw [o1] at c1
    exact Option.some.inj c1
  subst this
  rw [← hsz]
  split at o6 <;> omega

end TermFieldMatchData

open TermFieldMatchData

/-- One call that succeeds on a heap record with an intact header whose raw-score bit is
clear leaves such a record, of no smaller capacity. -/
theorem call_some_of_holds (c : Call) (t t' : TermFieldMatchData) (h h' : FreeStore)
    (xs : List TermFieldMatchDataPosition) (L : Nat)
    (hh : HoldsInHeap t h xs L) (hL1 : 1 ≤ L) (hr : t.isRawScore = false)
    (e : call t h c = some (t', h')) :
    ∃ xs' L', HoldsInHeap t' h' xs' L' ∧ L ≤ L' ∧ t'.isRawScore = false := by
  cases c with
  | reset d =>
    have e' : some (t.reset d, h) = some (t', h') := e
    simp only [Option.some.injEq, Prod.mk.injEq] at e'
    obtain ⟨e1, e2⟩ := e'
    subst e1
    subst e2
    exact ⟨[], L, reset_holds t h xs L d hh hr, Nat.le_refl _, by rw [reset_isRawScore, hr]⟩
  | appendPosition p =>
    have e' : t.appendPosition h p = some (t', h') := e
    have hlt := lt_of_appendPosition_some t t' h h' xs L p hh e'
    have hL := lt_of_holds t h xs L hh
    obtain ⟨u, g, e1, hh1, -, ef⟩ :=
      appendPositionToAllocatedVector_of_holds t h xs L p hh hL1 hlt
    rw [appendPosition_heap t h p hh.1, e1] at e'
    simp only [Option.some.injEq, Prod.mk.injEq] at e'
    obtain ⟨e2, e3⟩ := e'
    subst e2
    subst e3
    refine ⟨xs ++ [p], _, hh1, ?_, ?_⟩
    · split <;> omega
    · rw [isRawScore_of_fieldId t u ef, hr]

/-- A sequence of calls that succeeds on a heap record with an intact header whose
raw-score bit is clear leaves such a record, of no smaller capacity. -/
theorem calls_some_of_holds (cs : List Call) :
    ∀ (t t' : TermFieldMatchData) (h h' : FreeStore)
      (xs : List TermFieldMatchDataPosition) (L : Nat), HoldsInHeap t h xs L → 1 ≤ L →
      t.isRawScore = false → calls t h cs = some (t', h') →
      ∃ xs' L', HoldsInHeap t' h' xs' L' ∧ L ≤ L' ∧ t'.isRawScore = false := by
  induction cs with
  | nil =>
    intro t t' h h' xs L hh _ hr e
    have e' : some (t, h) = some (t', h') := e
    simp only [Option.some.injEq, Prod.mk.injEq] at e'
    obtain ⟨e1, e2⟩ := e'
    subst e1
    subst e2
    exact ⟨xs, L, hh, Nat.le_refl _, hr⟩
  | cons c cs ih =>
    intro t t' h h' xs L hh hL1 hr e
    cases hc : call t h c with
    | none =>
      simp only [calls, hc, Option.bind] at e
      cases e
    | some r =>
      simp only [calls, hc, Option.bind] at e
      obtain ⟨xs1, L1, hh1, hle1, hr1⟩ := call_some_of_holds c t r.1 h r.2 xs L hh hL1 hr hc
      obtain ⟨xs', L', hh2, hle2, hr2⟩ := ih r.1 t' r.2 h' xs1 L1 hh1 (by omega) hr1 e
      exact ⟨xs', L', hh2, by omega, hr2⟩

/-- A sequence of calls in which no document takes more than 65535 occurrences succeeds on
a heap record with an intact header whose raw-score bit is clear. -/
theorem calls_of_holds (cs : List Call) :
    ∀ (t : TermFieldMatchData) (h : FreeStore) (xs : List TermFieldMatchDataPosition)
      (L : Nat), HoldsInHeap t h xs L → 1 ≤ L → t.isRawScore = false →
      withinLimit 65535 xs.length cs = true → ∃ t' h', calls t h cs = some (t', h') := by
  induction cs with
  | nil =>
    intro t h xs L _ _ _ _
    exact ⟨t, h, rfl⟩
  | cons c cs ih =>
    intro t h xs L hh hL1 hr hw
    cases c with
    | reset d =>
      obtain ⟨t', h', e⟩ := ih (t.reset d) h [] L (reset_holds t h xs L d hh hr) hL1
        (by rw [reset_isRawScore, hr]) hw
      exact ⟨t', h', e⟩
    | appendPosition p =>
      simp only [withinLimit, Bool.and_eq_true, decide_eq_true_eq] at hw
      have hL := lt_of_holds t h xs L hh
      obtain ⟨u, g, e1, hh1, -, ef⟩ :=
        appendPositionToAllocatedVector_of_holds t h xs L p hh hL1 hw.1
      obtain ⟨t', h', e⟩ := ih u g (xs ++ [p]) _ hh1 (by split <;> omega)
        (by rw [isRawScore_of_fieldId t u ef, hr])
        (by rw [List.length_append, List.length_singleton]; exact hw.2)
      refine ⟨t', h', ?_⟩
      have e0 : call t h (Call.appendPosition p) = some (u, g) := by
        show t.appendPosition h p = _
        rw [appendPosition_heap t h p hh.1]
        exact e1
      simp only [calls, e0, Option.bind]
      exact e

/-- One call that succeeds on a record whose raw-score bit is clear and that is inline
with at most one occurrence, or in heap mode with an intact header, leaves such a
record. -/
theorem call_some_intact (c : Call) (t t' : TermFieldMatchData) (h h' : FreeStore)
    (hw : (t.isMultiPos = false ∧ t._sz ≤ 1 ∧ t.isRawScore = false)
      ∨ (t.isRawScore = false ∧ ∃ xs L, HoldsInHeap t h xs L ∧ 1 ≤ L))
    (e : call t h c = some (t', h')) :
    (t'.isMultiPos = false ∧ t'._sz ≤ 1 ∧ t'.isRawScore = false)
      ∨ (t'.isRawScore = false ∧ ∃ xs L, HoldsInHeap t' h' xs L ∧ 1 ≤ L) := by
  rcases hw with ⟨hm, hs, hr⟩ | ⟨hr, xs, L, hh, hL⟩
  · cases c with
    | reset d =>
      have e' : some (t.reset d, h) = some (t', h') := e
      simp only [Option.some.injEq, Prod.mk.injEq] at e'
      obtain ⟨e1, -⟩ := e'
      subst e1
      exact Or.inl ⟨by rw [reset_isMultiPos, hm], by rw [reset_sz]; omega,
        by rw [reset_isRawScore, hr]⟩
    | appendPosition p =>
      have e' : t.appendPosition h p = some (t', h') := e
      by_cases h0 : t._sz = 0
      · rw [appendPosition_inline t h p h0 hm] at e'
        simp only [Option.some.injEq, Prod.mk.injEq] at e'
        obtain ⟨e1, -⟩ := e'
        subst e1
        exact Or.inl ⟨(isMultiPos_eq _).trans ((isMultiPos_eq t).symm.trans hm),
          Nat.le_refl 1, (isRawScore_eq _).trans ((isRawScore_eq t).symm.trans hr)⟩
      · obtain ⟨t2, h2, e2, hh2, -, hr2⟩ :=
          appendPosition_second_holds t h p (by omega) hm
        rw [e2] at e'
        simp only [Option.some.injEq, Prod.mk.injEq] at e'
        obtain ⟨e3, e4⟩ := e'
        subst e3
        subst e4
        exact Or.inr ⟨hr2.trans hr, _, 2, hh2, by omega⟩
  · obtain ⟨xs', L', hh', hle, hr'⟩ := call_some_of_holds c t t' h h' xs L hh hL hr e
    exact Or.inr ⟨hr', xs', L', hh', by omega⟩

/-- Every record reached from a new one by `reset` and `appendPosition` calls is inline,
or in heap mode with its raw-score bit clear and an intact header. -/
theorem calls_some_intact (cs : List Call) :
    ∀ (t t' : TermFieldMatchData) (h h' : FreeStore),
      ((t.isMultiPos = false ∧ t._sz ≤ 1 ∧ t.isRawScore = false)
        ∨ (t.isRawScore = false ∧ ∃ xs L, HoldsInHeap t h xs L ∧ 1 ≤ L)) →
      calls t h cs = some (t', h') →
      t'.isMultiPos = false
        ∨ (t'.isRawScore = false ∧ ∃ xs L, HoldsInHeap t' h' xs L ∧ 1 ≤ L) := by
  induction cs with
  | nil =>
    intro t t' h h' hw e
    have e' : some (t, h) = some (t', h') := e
    simp only [Option.some.injEq, Prod.mk.injEq] at e'
    obtain ⟨e1, e2⟩ := e'
    subst e1
    subst e2
    rcases hw with ⟨hm, -, -⟩ | hw
    · exact Or.inl hm
    · exact Or.inr hw
  | cons c cs ih =>
    intro t t' h h' hw e
    cases hc : call t h c with
    | none =>
      simp only [calls, hc, Option.bind] at e
      cases e
    | some r =>
      simp only [calls, hc, Option.bind] at e
      exact ih r.1 t' r.2 h' (call_some_intact c t r.1 h r.2 hw hc) e

/-! ## The id word under the tagging and field id operations -/

namespace TermFieldMatchData

theorem testBit_or_2000 (x j : Nat) :
    ((x ||| 0x2000) % 65536).testBit j
      = (decide (j < 16) && (x.testBit j || decide (13 = j))) := by
  have e : (0x2000 : Nat) = 2 ^ 13 := by norm_num
  have e2 : (65536 : Nat) = 2 ^ 16 := by norm_num
  rw [e, e2, Nat.testBit_mod_two_pow, testBit_or_two_pow]

/-- The bits of `_fieldId & ~0x2000`, narrowed to 16 bits. -/
theorem testBit_and_not_2000 (x j : Nat) :
    ((x &&& 0xFFFFDFFF) % 65536).testBit j
      = (decide (j < 16) && (x.testBit j && !decide (13 = j))) := by
  have e : (0xFFFFDFFF : Nat) = (2 ^ 32 - 1) ^^^ 2 ^ 13 := by decide
  have e2 : (65536 : Nat) = 2 ^ 16 := by norm_num
  rw [e, e2, Nat.testBit_mod_two_pow, Nat.testBit_and, Nat.testBit_xor,
    Nat.testBit_two_pow_sub_one, Nat.testBit_two_pow]
  by_cases h16 : j < 16
  · have h32 : j < 32 := by omega
    by_cases h13 : 13 = j <;> simp [h16, h32, h13]
  · simp [h16]

/-- The bits of `(_fieldId & ~FIELDID_MASK) | fieldId`, narrowed to 16 bits, for a field
id of at most 13 bits. -/
theorem testBit_of_setFieldId (x y j : Nat) (hy : y < 8192) :
    (((x &&& 0xFFFFE000) ||| y) % 65536).testBit j
      = (decide (j < 16) && if j < 13 then y.testBit j else x.testBit j) := by
  have e : (0xFFFFE000 : Nat) = (2 ^ 19 - 1) <<< 13 := by decide
  have e2 : (65536 : Nat) = 2 ^ 16 := by norm_num
  rw [e, e2, Nat.testBit_mod_two_pow, Nat.testBit_or, Nat.testBit_and, Nat.testBit_shiftLeft,
    Nat.testBit_two_pow_sub_one]
  by_cases h16 : j < 16
  · by_cases h13 : j < 13
    · have : ¬ (j ≥ 13) := by omega
      simp [h16, h13, this]
    · have h1 : j ≥ 13 := by omega
      have h2 : j - 13 < 19 := by omega
      have h3 : y.testBit j = false := by
        apply Nat.testBit_lt_two_pow
        calc y < 2 ^ 13 := by simpa using hy
          _ ≤ 2 ^ j := Nat.pow_le_pow_right (by norm_num) h1
      simp [h16, h13, h1, h2, h3]
  · simp [h16]

theorem mod_8192_of_testBit (a b : Nat) (h : ∀ i, i < 13 → a.testBit i = b.testBit i) :
    a % 8192 = b % 8192 := by
  have e : (8192 : Nat) = 2 ^ 13 := by norm_num
  rw [e]
  apply Nat.eq_of_testBit_eq
  intro i
  rw [Nat.testBit_mod_two_pow, Nat.testBit_mod_two_pow]
  by_cases hi : i < 13
  · simp [hi, h i hi]
  · simp [hi]

/-- The result of `getFieldId()` is a function of the low 13 bits of `_fieldId`. -/
theorem getFieldId_congr (IllegalFieldId : uint32_t) (t u : TermFieldMatchData)
    (h : u._fieldId % 8192 = t._fieldId % 8192) :
    getFieldId IllegalFieldId u = getFieldId IllegalFieldId t := by
  simp only [getFieldId, and_mask, h]

theorem isRawScore_congr (t u : TermFieldMatchData)
    (h : u._fieldId.testBit 15 = t._fieldId.testBit 15) : u.isRawScore = t.isRawScore := by
  rw [isRawScore_eq, isRawScore_eq, h]

theorem isMultiPos_congr (t u : TermFieldMatchData)
    (h : u._fieldId.testBit 14 = t._fieldId.testBit 14) : u.isMultiPos = t.isMultiPos := by
  rw [isMultiPos_eq, isMultiPos_eq, h]

theorem isNotNeeded_congr (t u : TermFieldMatchData)
    (h : u._fieldId.testBit 13 = t._fieldId.testBit 13) : u.isNotNeeded = t.isNotNeeded := by
  rw [isNotNeeded_eq, isNotNeeded_eq, h]

/-- The readers of the payload see the same when the mode bits, the count and the
payload are the same. -/
theorem readers_congr (t u : TermFieldMatchData) (h : FreeStore)
    (hr : u.isRawScore = t.isRawScore) (hm : u.isMultiPos = t.isMultiPos)
    (hs : u._sz = t._sz) (hd : u._data = t._data) :
    u.getRawScore = t.getRawScore ∧ u.size = t.size ∧ u.begin = t.begin ∧ u.end_ = t.end_
      ∧ u.positions h = t.positions h ∧ u.getWeight h = t.getWeight h
      ∧ u.getSubqueries = t.getSubqueries ∧ u.capacity = t.capacity := by
  have hb : u.begin = t.begin := by
    simp only [begin, allocated, getMultiple, hm, hd]
  have he : u.end_ = t.end_ := by
    simp only [end_, allocated, getMultiple, TermFieldMatchData.empty, hm, hd, hs]
  refine ⟨?_, hs, hb, he, ?_, ?_, ?_, ?_⟩
  · simp only [getRawScore, hr, hd]
  · simp only [positions, hb, he]
    cases hbt : t.begin <;> cases het : t.end_ <;> simp only [range, getFixed, hd]
  · simp only [getWeight, allocated, getMultiple, getFixed, hm, hd, hs]
  · simp only [getSubqueries, TermFieldMatchData.empty, hr, hd, hs]
  · simp only [capacity, allocated, hm, hd]

/-- The members after a successful `setFieldId`. -/
theorem setFieldId_some (IllegalFieldId : uint32_t) (t t' : TermFieldMatchData)
    (id : uint32_t) (h : setFieldId IllegalFieldId t id = some t') :
    t'._docId = t._docId ∧ t'._sz = t._sz ∧ t'._data = t._data
      ∧ (∀ j, 13 ≤ j → j < 16 → t'._fieldId.testBit j = t._fieldId.testBit j) := by
  have key : ∀ y, y < 8192 →
      ∀ j, 13 ≤ j → j < 16 →
        (((t._fieldId &&& 0xFFFFE000) ||| y) % 65536).testBit j = t._fieldId.testBit j := by
    intro y hy j h1 h2
    rw [testBit_of_setFieldId _ _ _ hy]
    have : ¬ j < 13 := by omega
    simp [h2, this]
  unfold setFieldId at h
  split at h
  · cases h
    exact ⟨rfl, rfl, rfl, key FIELDID_MASK (by decide)⟩
  · split at h
    · rename_i hlt
      cases h
      exact ⟨rfl, rfl, rfl, key id.val (by
        have : FIELDID_MASK = 8191 := rfl
        omega)⟩
    · cases h

end TermFieldMatchData

/-- A raw score overwrites the header member `_allocated` with its bytes 2..3. -/
theorem Features.allocated_set_rawScore (d v : Nat) :
    Features._allocated (Features.set_rawScore d v) = v / 65536 % 65536 := by
  simp only [Features._allocated, Features.set_rawScore, Features.load, Features.store]
  norm_num
  omega

/-- A successful `setFieldId` exists for every accepted id. -/
theorem TermFieldMatchData.setFieldId_accepts (IllegalFieldId : uint32_t)
    (t : TermFieldMatchData) (id : uint32_t)
    (hid : id.val < FIELDID_MASK ∨ id = IllegalFieldId) :
    ∃ t', setFieldId IllegalFieldId t id = some t' := by
  by_cases hI : id = IllegalFieldId
  · exact ⟨_, by rw [setFieldId, if_pos hI]⟩
  · have hlt : id.val < FIELDID_MASK := by
      rcases hid with h | h
      · exact h
      · exact absurd h hI
    exact ⟨_, by rw [setFieldId, if_neg hI, if_pos hlt]⟩

/-! ## Sequences of public calls -/

namespace TermFieldMatchData

theorem tagAsNotNeeded_modes (t : TermFieldMatchData) :
    t.tagAsNotNeeded.isRawScore = t.isRawScore ∧ t.tagAsNotNeeded.isMultiPos = t.isMultiPos := by
  have b1 : ∀ j, t.tagAsNotNeeded._fieldId.testBit j
      = (decide (j < 16) && (t._fieldId.testBit j || decide (13 = j))) :=
    fun j => testBit_or_2000 _ j
  exact ⟨isRawScore_congr _ _ (by rw [b1]; simp), isMultiPos_congr _ _ (by rw [b1]; simp)⟩

theorem tagAsNeeded_modes (t : TermFieldMatchData) :
    t.tagAsNeeded.isRawScore = t.isRawScore ∧ t.tagAsNeeded.isMultiPos = t.isMultiPos := by
  have b2 : ∀ j, t.tagAsNeeded._fieldId.testBit j
      = (decide (j < 16) && (t._fieldId.testBit j && !decide (13 = j))) :=
    fun j => testBit_and_not_2000 _ j
  exact ⟨isRawScore_congr _ _ (by rw [b2]; simp), isMultiPos_congr _ _ (by rw [b2]; simp)⟩

theorem enableRawScore_isMultiPos (t : TermFieldMatchData) :
    t.enableRawScore.isMultiPos = t.isMultiPos := by
  rw [isMultiPos_eq, isMultiPos_eq]
  show ((t._fieldId ||| 0x8000) % 65536).testBit 14 = t._fieldId.testBit 14
  rw [testBit_or_8000]
  simp

/-- What a successful `appendPosition` leaves: the inline slot taken, or a heap record
with one more occurrence, in an array that was grown when it was full. -/
theorem appendPosition_some (t t' : TermFieldMatchData) (h h' : FreeStore)
    (p : TermFieldMatchDataPosition) (e : t.appendPosition h p = some (t', h')) :
    (t._sz = 0 ∧ t.isMultiPos = false ∧ t'.isMultiPos = false ∧ t'._sz = 1
        ∧ t'.isRawScore = t.isRawScore)
      ∨ (¬ (t._sz = 0 ∧ t.isMultiPos = false) ∧ t'.isMultiPos = true
        ∧ t'.isRawScore = t.isRawScore ∧ t'._sz = (t._sz + 1) % 65536
        ∧ Features._allocated t'._data
            = (if t._sz = (if t.isMultiPos then Features._allocated t._data else 2)
               then min (2 * (if t.isMultiPos then Features._allocated t._data else 2)) 65535
               else (if t.isMultiPos then Features._allocated t._data else 2))
        ∧ (t._sz = (if t.isMultiPos then Features._allocated t._data else 2) →
            t._sz < min (2 * (if t.isMultiPos then Features._allocated t._data else 2))
              65535)) := by
  by_cases hc : t._sz = 0 ∧ t.isMultiPos = false
  · left
    rw [appendPosition_inline t h p hc.1 hc.2] at e
    simp only [Option.some.injEq, Prod.mk.injEq] at e
    obtain ⟨e1, -⟩ := e
    subst e1
    refine ⟨hc.1, hc.2, ?_, rfl, ?_⟩
    · exact (isMultiPos_congr t _ rfl).trans hc.2
    · exact isRawScore_congr t _ rfl
  · right
    refine ⟨hc, ?_⟩
    cases hm : t.isMultiPos
    · rw [hm] at hc
      unfold appendPosition at e
      rw [if_neg (by simp [allocated, hm]; simpa using hc)] at e
      simp only [allocated, hm, Bool.not_false, if_true] at e
      obtain ⟨f1, -, f3, f4, -, old, cells, -, -, -, o4, -, o6⟩ :=
        appendPositionToAllocatedVector_some _ _ _ _ _ e
      obtain ⟨a1, a2, a3, -⟩ := allocateVector_members t h
      have hm' : t'.isMultiPos = true :=
        (isMultiPos_congr _ t' (by rw [f1])).trans (allocateVector_isMultiPos t h)
      have hcap : (t.allocateVector h).1.capacity = 2 := by
        rw [capacity_of_multiPos _ (allocateVector_isMultiPos t h), a3]
      rw [hcap, a2] at f4 o6
      rw [a2] at f3 o4
      rw [a3] at f4
      refine ⟨hm', ?_, f3, ?_, ?_⟩
      · exact (isRawScore_congr _ t' (by rw [f1])).trans (allocateVector_isRawScore t h)
      · simpa using f4
      · intro hs
        simp only [Bool.false_eq_true, if_false] at hs ⊢
        rw [if_pos hs] at o6
        omega
    · rw [appendPosition_heap t h p hm] at e
      obtain ⟨f1, -, f3, f4, -, old, cells, -, -, -, o4, -, o6⟩ :=
        appendPositionToAllocatedVector_some _ _ _ _ _ e
      have hm' : t'.isMultiPos = true := (isMultiPos_congr t t' (by rw [f1])).trans hm
      rw [capacity_of_multiPos t hm] at f4 o6
      refine ⟨hm', isRawScore_congr t t' (by rw [f1]), f3, ?_, ?_⟩
      · simpa using f4
      · intro hs
        simp only [if_true] at hs ⊢
        rw [if_pos hs] at o6
        omega

/-- What a successful `populate_fixed` leaves. -/
theorem populate_fixed_some (t t' : TermFieldMatchData) (e : t.populate_fixed = some t') :
    t.isMultiPos = false ∧ t'.isMultiPos = false ∧ t'.isRawScore = t.isRawScore
      ∧ t'._sz = (if t._sz = 0 then 1 else t._sz) := by
  unfold populate_fixed at e
  cases hm : t.isMultiPos
  · simp only [allocated, hm, Bool.false_eq_true, if_false] at e
    by_cases h0 : t._sz = 0
    · rw [if_pos h0] at e
      cases e
      exact ⟨rfl, (isMultiPos_congr t _ rfl).trans hm, isRawScore_congr t _ rfl,
        by rw [if_pos h0]⟩
    · rw [if_neg h0] at e
      cases e
      exact ⟨rfl, hm, rfl, by rw [if_neg h0]⟩
  · simp [allocated, hm] at e

/-- What a successful `reservePositions` leaves. -/
theorem reservePositions_some (t t' : TermFieldMatchData) (h h' : FreeStore) (n : Nat)
    (e : t.reservePositions h n = some (t', h')) :
    t'._sz = t._sz ∧ t'.isRawScore = t.isRawScore
      ∧ ((n ≤ t.capacity ∧ t' = t)
        ∨ (t.capacity < n ∧ t'.isMultiPos = true
          ∧ ((Features._allocated t'._data = min n 65535 ∧ t._sz ≤ min n 65535)
            ∨ (t.isMultiPos = false ∧ n ≤ 2 ∧ Features._allocated t'._data = 2)))) := by
  unfold reservePositions at e
  by_cases hn : n > t.capacity
  · rw [if_pos hn] at e
    cases hm : t.isMultiPos
    · simp only [allocated, hm, Bool.not_false, if_true] at e
      obtain ⟨a1, a2, a3, -⟩ := allocateVector_members t h
      have hcap : (t.allocateVector h).1.capacity = 2 := by
        rw [capacity_of_multiPos _ (allocateVector_isMultiPos t h), a3]
      by_cases h2 : n ≤ (t.allocateVector h).1.capacity
      · rw [if_pos h2] at e
        simp only [Option.some.injEq] at e
        have e1 : t' = (t.allocateVector h).1 := by rw [e]
        subst e1
        exact ⟨a2, allocateVector_isRawScore t h, Or.inr ⟨hn, allocateVector_isMultiPos t h,
          Or.inr ⟨rfl, by rw [hcap] at h2; exact h2, a3⟩⟩⟩
      · rw [if_neg h2] at e
        obtain ⟨f1, f2, -, f4, -, f6, -⟩ := resizePositionVector_some _ _ _ _ _ e
        rw [a2] at f6
        exact ⟨f2.trans a2,
          (isRawScore_congr _ t' (by rw [f1])).trans (allocateVector_isRawScore t h),
          Or.inr ⟨hn, (isMultiPos_congr _ t' (by rw [f1])).trans
            (allocateVector_isMultiPos t h), Or.inl ⟨f4, f6⟩⟩⟩
    · simp only [allocated, hm, Bool.not_true, Bool.false_eq_true, if_false] at e
      obtain ⟨f1, f2, -, f4, -, f6, -⟩ := resizePositionVector_some _ _ _ _ _ e
      exact ⟨f2, isRawScore_congr t t' (by rw [f1]),
        Or.inr ⟨hn, (isMultiPos_congr t t' (by rw [f1])).trans hm, Or.inl ⟨f4, f6⟩⟩⟩
  · rw [if_neg hn] at e
    simp only [Option.some.injEq, Prod.mk.injEq] at e
    obtain ⟨e1, -⟩ := e
    subst e1
    exact ⟨rfl, rfl, Or.inl ⟨by omega, rfl⟩⟩

/-- The pointer difference `end() - begin()` is the count when an inline record holds at
most one occurrence. -/
theorem distance_begin_end (t : TermFieldMatchData)
    (hA : t.isMultiPos = false → t._sz ≤ 1) :
    PositionsIterator.distance t.begin t.end_ = some t.size := by
  cases hm : t.isMultiPos
  · have h1 := hA hm
    by_cases h0 : t._sz = 0
    · simp [begin, end_, allocated, hm, TermFieldMatchData.empty, h0,
        PositionsIterator.distance, size]
    · have : t._sz = 1 := by omega
      simp [begin, end_, allocated, hm, TermFieldMatchData.empty, this,
        PositionsIterator.distance, size]
  · simp [begin, end_, allocated, hm, PositionsIterator.distance, size]

end TermFieldMatchData

/-- An inline record holds at most one occurrence: kept by every public call. -/
theorem publicCall_inline (IllegalFieldId : uint32_t) (c : PublicCall)
    (t t' : TermFieldMatchData) (h h' : FreeStore)
    (e : publicCall IllegalFieldId t h c = some (t', h'))
    (hA : t.isMultiPos = false → t._sz ≤ 1) : t'.isMultiPos = false → t'._sz ≤ 1 := by
  cases c with
  | setFieldId id =>
    simp only [publicCall, Option.map_eq_some'] at e
    obtain ⟨u, e1, e2⟩ := e
    cases e2
    obtain ⟨-, hs, -, hb⟩ := setFieldId_some IllegalFieldId t t' id e1
    intro hm
    rw [hs]
    exact hA ((isMultiPos_congr t t' (hb 14 (by omega) (by omega))).symm.trans hm)
  | reset d =>
    cases e
    intro _
    rw [reset_sz]
    omega
  | resetOnlyDocId d =>
    cases e
    exact hA
  | setRawScore d s =>
    cases e
    intro hm
    exact hA ((setRawScore_isMultiPos t d s).symm.trans hm)
  | enableRawScore =>
    cases e
    intro hm
    exact hA ((enableRawScore_isMultiPos t).symm.trans hm)
  | setSubqueries d b =>
    cases e
    exact hA
  | appendPosition p =>
    rcases appendPosition_some t t' h h' p e with ⟨-, -, -, hs, -⟩ | ⟨-, hm, -⟩
    · intro _
      omega
    · intro hm'
      rw [hm] at hm'
      cases hm'
  | populate_fixed =>
    simp only [publicCall, Option.map_eq_some'] at e
    obtain ⟨u, e1, e2⟩ := e
    cases e2
    obtain ⟨hm, -, -, hs⟩ := populate_fixed_some t t' e1
    intro _
    have := hA hm
    rw [hs]
    split <;> omega
  | reservePositions n =>
    obtain ⟨hs, -, hcase⟩ := reservePositions_some t t' h h' n.val e
    rcases hcase with ⟨-, rfl⟩ | ⟨-, hm, -⟩
    · exact hA
    · intro hm'
      rw [hm] at hm'
      cases hm'
  | tagAsNotNeeded =>
    cases e
    intro hm
    exact hA ((tagAsNotNeeded_modes t).2.symm.trans hm)
  | tagAsNeeded =>
    cases e
    intro hm
    exact hA ((tagAsNeeded_modes t).2.symm.trans hm)

/-- In heap mode the count does not exceed the capacity the header states: kept by every
public call that does not store a smaller number over the header. -/
theorem publicCall_header (IllegalFieldId : uint32_t) (c : PublicCall)
    (t t' : TermFieldMatchData) (h h' : FreeStore)
    (e : publicCall IllegalFieldId t h c = some (t', h'))
    (hk : c.keepsHeader t = true)
    (hA : t.isMultiPos = false → t._sz ≤ 1)
    (hJ : t.isMultiPos = true → t._sz ≤ Features._allocated t._data) :
    t'.isMultiPos = true → t'._sz ≤ Features._allocated t'._data := by
  cases c with
  | setFieldId id =>
    simp only [publicCall, Option.map_eq_some'] at e
    obtain ⟨u, e1, e2⟩ := e
    cases e2
    obtain ⟨-, hs, hd, hb⟩ := setFieldId_some IllegalFieldId t t' id e1
    intro hm
    rw [hs, hd]
    exact hJ ((isMultiPos_congr t t' (hb 14 (by omega) (by omega))).symm.trans hm)
  | reset d =>
    cases e
    intro _
    rw [reset_sz]
    exact Nat.zero_le _
  | resetOnlyDocId d =>
    cases e
    exact hJ
  | setRawScore d s =>
    cases e
    intro hm
    rw [setRawScore_isMultiPos] at hm
    have hk' : (!t.isMultiPos || decide (t._sz ≤ s.val / 65536 % 65536)) = true := hk
    rw [hm] at hk'
    have hle : t._sz ≤ s.val / 65536 % 65536 := by simpa using hk'
    show t._sz ≤ Features._allocated (Features.set_rawScore _ s.val)
    rw [Features.allocated_set_rawScore]
    exact hle
  | enableRawScore =>
    cases e
    intro hm
    exact hJ ((enableRawScore_isMultiPos t).symm.trans hm)
  | setSubqueries d b =>
    cases e
    intro hm
    have hm0 : t.isMultiPos = true := hm
    have hk' : (!t.isMultiPos || decide (t._sz ≤ b.val / 65536 % 65536)) = true := hk
    rw [hm0] at hk'
    have hle : t._sz ≤ b.val / 65536 % 65536 := by simpa using hk'
    show t._sz ≤ Features._allocated (Features.set_rawScore _ b.val)
    rw [Features.allocated_set_rawScore]
    exact hle
  | appendPosition p =>
    rcases appendPosition_some t t' h h' p e with
      ⟨-, -, hm', -, -⟩ | ⟨hc, -, -, hs, hal, hgrow⟩
    · intro hm
      rw [hm'] at hm
      cases hm
    · intro _
      cases hm : t.isMultiPos
      · have h1 := hA hm
        have h2 : t._sz = 1 := by
          have : t._sz ≠ 0 := fun h0 => hc ⟨h0, hm⟩
          omega
        simp only [hm, Bool.false_eq_true, if_false, h2] at hal
        rw [hs, hal, h2]
        simp
      · have j2 := hJ hm
        have hlt := Features.allocated_lt t._data
        simp only [hm, if_true] at hal hgrow
        rw [hs, hal]
        split
        · rename_i hcase
          have := hgrow hcase
          omega
        · omega
  | populate_fixed =>
    simp only [publicCall, Option.map_eq_some'] at e
    obtain ⟨u, e1, e2⟩ := e
    cases e2
    obtain ⟨-, hm', -, -⟩ := populate_fixed_some t t' e1
    intro hm
    rw [hm'] at hm
    cases hm
  | reservePositions n =>
    obtain ⟨hs, -, hcase⟩ := reservePositions_some t t' h h' n.val e
    rcases hcase with ⟨-, rfl⟩ | ⟨hn, -, hal⟩
    · exact hJ
    · intro _
      rw [hs]
      rcases hal with ⟨hal, hle⟩ | ⟨hf, -, hal⟩
      · rw [hal]
        exact hle
      · rw [hal]
        have := hA hf
        omega
  | tagAsNotNeeded =>
    cases e
    intro hm
    exact hJ ((tagAsNotNeeded_modes t).2.symm.trans hm)
  | tagAsNeeded =>
    cases e
    intro hm
    exact hJ ((tagAsNeeded_modes t).2.symm.trans hm)

/-- A call that stores a smaller number over the header of a heap record leaves the count
above the capacity the header states. -/
theorem publicCall_header_lost (IllegalFieldId : uint32_t) (c : PublicCall)
    (t t' : TermFieldMatchData) (h h' : FreeStore)
    (e : publicCall IllegalFieldId t h c = some (t', h'))
    (hk : c.keepsHeader t = false) :
    t'.isMultiPos = true ∧ t'.capacity < t'.size := by
  cases c with
  | setRawScore d s =>
    cases e
    have hk' : (!t.isMultiPos || decide (t._sz ≤ s.val / 65536 % 65536)) = false := hk
    have hm : t.isMultiPos = true := by
      cases hmm : t.isMultiPos
      · rw [hmm] at hk'
        cases hk'
      · rfl
    rw [hm] at hk'
    have hlt : ¬ t._sz ≤ s.val / 65536 % 65536 := by simpa using hk'
    have hm' : (t.setRawScore d s).isMultiPos = true := by rw [setRawScore_isMultiPos, hm]
    refine ⟨hm', ?_⟩
    rw [capacity_of_multiPos _ hm']
    show Features._allocated (Features.set_rawScore _ s.val) < t._sz
    rw [Features.allocated_set_rawScore]
    omega
  | setSubqueries d b =>
    cases e
    have hk' : (!t.isMultiPos || decide (t._sz ≤ b.val / 65536 % 65536)) = false := hk
    have hm : t.isMultiPos = true := by
      cases hmm : t.isMultiPos
      · rw [hmm] at hk'
        cases hk'
      · rfl
    rw [hm] at hk'
    have hlt : ¬ t._sz ≤ b.val / 65536 % 65536 := by simpa using hk'
    have hm' : (t.setSubqueries d b).isMultiPos = true := hm
    refine ⟨hm', ?_⟩
    rw [capacity_of_multiPos _ hm']
    show Features._allocated (Features.set_rawScore _ b.val) < t._sz
    rw [Features.allocated_set_rawScore]
    omega
  | setFieldId id => cases hk
  | reset d => cases hk
  | resetOnlyDocId d => cases hk
  | enableRawScore => cases hk
  | appendPosition p => cases hk
  | populate_fixed => cases hk
  | reservePositions n => cases hk
  | tagAsNotNeeded => cases hk
  | tagAsNeeded => cases hk

/-- The two invariants along a sequence of public calls. -/
theorem publicCalls_invariant (IllegalFieldId : uint32_t) (cs : List PublicCall) :
    ∀ (t t' : TermFieldMatchData) (h h' : FreeStore),
      publicCalls IllegalFieldId t h cs = some (t', h') →
      (t.isMultiPos = false → t._sz ≤ 1) →
      (t'.isMultiPos = false → t'._sz ≤ 1)
        ∧ (publicCallsKeepHeader IllegalFieldId t h cs = true →
            (t.isMultiPos = true → t._sz ≤ Features._allocated t._data) →
            t'.isMultiPos = true → t'._sz ≤ Features._allocated t'._data) := by
  induction cs with
  | nil =>
    intro t t' h h' e hA
    cases e
    exact ⟨hA, fun _ hJ hm => hJ hm⟩
  | cons c cs ih =>
    intro t t' h h' e hA
    simp only [publicCalls] at e
    cases e1 : publicCall IllegalFieldId t h c with
    | none =>
      rw [e1] at e
      cases e
    | some r =>
      rw [e1] at e
      simp only [Option.bind] at e
      have hA1 := publicCall_inline IllegalFieldId c t r.1 h r.2 e1 hA
      obtain ⟨i1, i2⟩ := ih r.1 t' r.2 h' e hA1
      refine ⟨i1, ?_⟩
      intro hk hJ hm
      simp only [publicCallsKeepHeader, e1, Bool.and_eq_true] at hk
      exact i2 hk.2 (publicCall_header IllegalFieldId c t r.1 h r.2 e1 hk.1 hA hJ) hm

/-! ## The maximal element length of a heap record -/

namespace TermFieldMatchData

theorem Features.maxElementLength_set_rawScore_zero (d : Nat) :
    Features._maxElementLength (Features.set_rawScore d 0) = 0 := by
  simp only [Features._maxElementLength, Features.set_rawScore, Features.load,
    Features.store]
  norm_num
  omega

/-- After `reset` the header member `_maxElementLength` of a heap record is 0, in
raw-score mode too: the zeroed raw score covers its bytes. -/
theorem reset_maxElementLength (t : TermFieldMatchData) (d : uint32_t)
    (hm : t.isMultiPos = true) : Features._maxElementLength (t.reset d)._data = 0 := by
  cases hr : t.isRawScore
  · rw [reset_data_of_multiPos t d hr hm, Features.maxElementLength_set_maxElementLength]
  · rw [reset_data_of_rawScore t d hr, Features.maxElementLength_set_rawScore_zero]

/-- A heap record stays one under the appends that succeed. -/
theorem appendPositions_isMultiPos (ps : List TermFieldMatchDataPosition) :
    ∀ (t t' : TermFieldMatchData) (h h' : FreeStore), t.isMultiPos = true →
      t.appendPositions h ps = some (t', h') → t'.isMultiPos = true := by
  induction ps with
  | nil =>
    intro t t' h h' hm e
    cases e
    exact hm
  | cons p ps ih =>
    intro t t' h h' hm e
    simp only [appendPositions] at e
    cases e1 : t.appendPosition h p with
    | none =>
      rw [e1] at e
      cases e
    | some r =>
      rw [e1] at e
      simp only [Option.bind] at e
      rw [appendPosition_heap t h p hm] at e1
      obtain ⟨f1, -⟩ := appendPositionToAllocatedVector_some t r.1 h r.2 p e1
      exact ih r.1 t' r.2 h' ((isMultiPos_congr t r.1 (by rw [f1])).trans hm) e

/-- The header member `_maxElementLength` after a run of appends on a heap record, all
element lengths fitting 16 bits. -/
theorem appendPositions_max (ps : List TermFieldMatchDataPosition) :
    ∀ (t t' : TermFieldMatchData) (h h' : FreeStore), t.isMultiPos = true →
      t.appendPositions h ps = some (t', h') →
      (∀ p, p ∈ ps → p.getElementLen < 65536) →
      t'.isMultiPos = true
        ∧ Features._maxElementLength t'._data
            = max (Features._maxElementLength t._data) (maxElementLen ps) := by
  induction ps with
  | nil =>
    intro t t' h h' hm e _
    cases e
    exact ⟨hm, by simp [maxElementLen]⟩
  | cons p ps ih =>
    intro t t' h h' hm e hlen
    simp only [appendPositions] at e
    cases e1 : t.appendPosition h p with
    | none =>
      rw [e1] at e
      cases e
    | some r =>
      rw [e1] at e
      simp only [Option.bind] at e
      rw [appendPosition_heap t h p hm] at e1
      obtain ⟨f1, -, -, -, f4, -⟩ := appendPositionToAllocatedVector_some t r.1 h r.2 p e1
      have hm1 : r.1.isMultiPos = true := (isMultiPos_congr t r.1 (by rw [f1])).trans hm
      obtain ⟨i1, i2⟩ := ih r.1 t' r.2 h' hm1 e
        (fun q hq => hlen q (List.mem_cons_of_mem _ hq))
      have hp := hlen p (List.mem_cons_self _ _)
      refine ⟨i1, ?_⟩
      rw [i2, f4]
      simp only [maxElementLen]
      split <;> omega

/-- The header member `_maxElementLength` after a run of two or more appends on an empty
inline record: the record is in heap mode, and the member is the largest element length
when all of them fit 16 bits. -/
theorem appendPositions_max_of_empty (t t' : TermFieldMatchData) (h h' : FreeStore)
    (ps : List TermFieldMatchDataPosition) (hsz : t._sz = 0) (hm : t.isMultiPos = false)
    (e : t.appendPositions h ps = some (t', h')) (h2 : 2 ≤ ps.length) :
    t'.isMultiPos = true
      ∧ ((∀ p, p ∈ ps → p.getElementLen < 65536) →
          Features._maxElementLength t'._data = maxElementLen ps) := by
  match ps, h2, e with
  | p :: q :: rest, _, e =>
    have hm1 : ({ t with _sz := 1, _data := Features.set_position t._data p }
        : TermFieldMatchData).isMultiPos = false := (isMultiPos_congr t _ rfl).trans hm
    have hfix : ({ t with _sz := 1, _data := Features.set_position t._data p }
        : TermFieldMatchData).getFixed = p := Features.position_set_position _ _
    have hne : ({ t with _sz := 1, _data := Features.set_position t._data p }
        : TermFieldMatchData).empty = false := by simp [TermFieldMatchData.empty]
    simp only [appendPositions, appendPosition_inline t h p hsz hm, Option.bind] at e
    rw [appendPosition_second _ h q (by simp) hm1] at e
    cases e2 : (allocateVector { t with _sz := 1, _data := Features.set_position t._data p }
        h).1.appendPositionToAllocatedVector
        (allocateVector { t with _sz := 1, _data := Features.set_position t._data p } h).2
        q with
    | none =>
      rw [e2] at e
      cases e
    | some r =>
      rw [e2] at e
      obtain ⟨f1, -, -, -, f4, -⟩ := appendPositionToAllocatedVector_some _ _ _ _ _ e2
      obtain ⟨-, -, -, a4⟩ := allocateVector_members
        { t with _sz := 1, _data := Features.set_position t._data p } h
      rw [hne, hfix] at a4
      have hmr : r.1.isMultiPos = true :=
        (isMultiPos_congr _ r.1 (by rw [f1])).trans (allocateVector_isMultiPos _ h)
      refine ⟨appendPositions_isMultiPos rest r.1 t' r.2 h' hmr e, ?_⟩
      intro hlen
      obtain ⟨-, i2⟩ := appendPositions_max rest r.1 t' r.2 h' hmr e
        (fun x hx => hlen x (List.mem_cons_of_mem _ (List.mem_cons_of_mem _ hx)))
      have hp := hlen p (List.mem_cons_self _ _)
      have hq := hlen q (List.mem_cons_of_mem _ (List.mem_cons_self _ _))
      rw [i2, f4, a4]
      simp only [maxElementLen, Bool.false_eq_true, if_false]
      split <;> omega

theorem getIterator_len_of_empty (UNKNOWN_LENGTH : Nat) (t : TermFieldMatchData)
    (hsz : t._sz = 0) : (getIterator UNKNOWN_LENGTH t).len = UNKNOWN_LENGTH := by
  simp [getIterator, getMaxElementLength, TermFieldMatchData.empty, hsz]

/-- The length `getIterator()` passes after a run of one or more appends on a record
that has just been reset: the largest element length, or `UNKNOWN_LENGTH` when that is 0,
when the element lengths fit 16 bits or the record is left inline. -/
theorem getIterator_len_appendPositions (UNKNOWN_LENGTH : Nat) (t t' : TermFieldMatchData)
    (h h' : FreeStore) (ps : List TermFieldMatchDataPosition) (hsz : t._sz = 0)
    (hmax0 : t.isMultiPos = true → Features._maxElementLength t._data = 0)
    (e : t.appendPositions h ps = some (t', h')) (hN : 1 ≤ ps.length)
    (hlen : t'.isMultiPos = true → ∀ p, p ∈ ps → p.getElementLen < 65536) :
    (getIterator UNKNOWN_LENGTH t').len
      = (if maxElementLen ps = 0 then UNKNOWN_LENGTH else maxElementLen ps) := by
  have hh0 : Holds t h [] := ⟨hsz, fun _ => Or.inl rfl, fun _ => ⟨Nat.zero_le _, Or.inl rfl⟩⟩
  have hh := holds_appendPositions ps t t' h h' [] hh0 e
  have hne : t'._sz ≠ 0 := by
    rw [hh.1, List.nil_append]
    omega
  cases hm : t.isMultiPos with
  | false =>
    match ps, hN, hlen, e with
    | [p], _, _, e =>
      simp only [appendPositions, appendPosition_inline _ h p hsz hm, Option.bind,
        Option.some.injEq, Prod.mk.injEq] at e
      obtain ⟨e1, -⟩ := e
      subst e1
      have hm1 : ({ t with _sz := 1, _data := Features.set_position t._data p }
          : TermFieldMatchData).isMultiPos = false := (isMultiPos_congr t _ rfl).trans hm
      have hfix : ({ t with _sz := 1, _data := Features.set_position t._data p }
          : TermFieldMatchData).getFixed = p := Features.position_set_position _ _
      simp only [getIterator, getMaxElementLength, TermFieldMatchData.empty, allocated, hm1,
        hfix, maxElementLen]
      by_cases h0 : p.getElementLen = 0 <;> simp [h0]
    | p :: q :: rest, _, hlen, e =>
      obtain ⟨hm', hmax⟩ := appendPositions_max_of_empty t t' h h' (p :: q :: rest) hsz hm e
        (by simp)
      have hmax' := hmax (hlen hm')
      simp only [getIterator, getMaxElementLength, TermFieldMatchData.empty, allocated, hm',
        hmax']
      by_cases h0 : maxElementLen (p :: q :: rest) = 0 <;> simp [h0, hne]
  | true =>
    have hm' := appendPositions_isMultiPos ps t t' h h' hm e
    obtain ⟨-, hmax⟩ := appendPositions_max ps t t' h h' hm e (hlen hm')
    rw [hmax0 hm, Nat.zero_max] at hmax
    simp only [getIterator, getMaxElementLength, TermFieldMatchData.empty, allocated, hm',
      hmax]
    by_cases h0 : maxElementLen ps = 0 <;> simp [h0, hne]

end TermFieldMatchData

/-! ## The claims -/

/-- C1: on a freshly constructed record, `reset(d)` followed by `appendPosition(p)`
succeeds without touching the free store and gives a record whose range
`[begin(), end())` holds exactly the one occurrence `p`, whose `getWeight()` is the
element weight of `p` and whose `getDocId()` is `d`. -/
theorem C1_single_occurrence_round_trip (d : uint32_t) (p : TermFieldMatchDataPosition)
    (h : FreeStore) :
    ∃ t, (TermFieldMatchData.new.reset d).appendPosition h p = some (t, h)
      ∧ t.positions h = some [p] ∧ t.size = 1
      ∧ t.getWeight h = some p.getElementWeight ∧ t.getDocId = d.val := by
  have hm : (TermFieldMatchData.new.reset d).isMultiPos = false := by
    rw [reset_isMultiPos, new_isMultiPos]
  have hs := inline_single (TermFieldMatchData.new.reset d) h p hm
  exact ⟨_, appendPosition_inline _ h p (reset_sz _ d) hm, hs.1, rfl, hs.2,
    (getDocId_inline _ p).trans (reset_docId _ d)⟩

/-- C2, refuted as stated for a record that has been used before. A new record takes two
occurrences and is in heap mode; `reset(1)`, `setSubqueries(1, 458752)` and `reset(2)`
follow: the bitmap has been stored over the array header, `capacity()` reads 7 and the
array pointer is lost, so the first `appendPosition` on this freshly reset record finds no
array. And a record whose raw-score bit is set takes two occurrences and is in heap mode;
its next `reset` zeroes the raw score and with it the header, `capacity()` reads 0 and
the first `appendPosition` after that `reset` finds no array. -/
theorem C2_counterexample :
    (publicCalls 4294967295 TermFieldMatchData.new ⟨4096, []⟩
          [.reset 0, .appendPosition ⟨1, 2, 3, 4⟩, .appendPosition ⟨5, 6, 7, 8⟩, .reset 1,
            .setSubqueries 1 458752, .reset 2]).map
        (fun r => (r.1.size, r.1.isMultiPos, r.1.capacity,
          (r.1.appendPosition r.2 ⟨9, 10, 11, 12⟩).isSome))
      = some (0, true, 7, false)
    ∧ (publicCalls 4294967295 TermFieldMatchData.new ⟨4096, []⟩
          [.enableRawScore, .reset 0, .appendPosition ⟨1, 2, 3, 4⟩,
            .appendPosition ⟨5, 6, 7, 8⟩, .reset 1]).map
        (fun r => (r.1.size, r.1.isMultiPos, r.1.capacity,
          (r.1.appendPosition r.2 ⟨9, 10, 11, 12⟩).isSome))
      = some (0, true, 0, false) := by
  decide

/-- C2 as amended: for every record that is inline, or in heap mode with its raw-score bit
clear and its array header intact (`getMultiple()` the address of a live array of
`capacity() >= 1` cells), every doc id `d`, every sequence `p1..pN` of occurrences with
`N <= 65535` and every `k <= N`, the calls `appendPosition(p1)`, ..., `appendPosition(pk)`
after `reset(d)` all succeed, `size()` is `k` after the `k`-th of them, and the range
`[begin(), end())` then holds exactly `p1..pk` in append order: across the move from the
inline slot to the array and across every reallocation. Every record reached from a new
one by `reset` and `appendPosition` calls is such a record. And on every record whatever,
the appends after `reset(d)` that succeed leave `size() == k` and exactly `p1..pk` in the
range. -/
theorem C2_growth_correctness (t : TermFieldMatchData) (h : FreeStore) (d : uint32_t)
    (ps : List TermFieldMatchDataPosition) (k : Nat) (hk : k ≤ ps.length) :
    (ps.length ≤ 65535 →
        (t.isMultiPos = false
          ∨ (t.isRawScore = false ∧ ∃ xs L, HoldsInHeap t h xs L ∧ 1 ≤ L)) →
        ∃ t' h', (t.reset d).appendPositions h (ps.take k) = some (t', h')
          ∧ t'.size = k ∧ t'.positions h' = some (ps.take k))
      ∧ (∀ h0 cs, calls TermFieldMatchData.new h0 cs = some (t, h) →
          t.isMultiPos = false
            ∨ (t.isRawScore = false ∧ ∃ xs L, HoldsInHeap t h xs L ∧ 1 ≤ L))
      ∧ ∀ t' h', (t.reset d).appendPositions h (ps.take k) = some (t', h') →
          t'.size = k ∧ t'.positions h' = some (ps.take k) := by
  have hlen : (ps.take k).length = k := by
    rw [List.length_take]
    omega
  refine ⟨?_, ?_, ?_⟩
  · intro hN hwf
    rcases hwf with hm | ⟨hr, xs, L, hh, hL⟩
    · have hm' : (t.reset d).isMultiPos = false := by rw [reset_isMultiPos, hm]
      obtain ⟨t', h', e, hs, hp, -, -⟩ :=
        appendPositions_of_empty (t.reset d) h (ps.take k) (reset_sz _ d) hm' (by omega)
      exact ⟨t', h', e, hs.trans hlen, hp⟩
    · have hh0 := reset_holds t h xs L d hh hr
      obtain ⟨t', h', L', e, hh1, -, -, -⟩ :=
        appendPositions_of_holds (ps.take k) (t.reset d) h [] L hh0 hL
          (by rw [hlen]; simp; omega)
      rw [List.nil_append] at hh1
      exact ⟨t', h', e, hh1.2.1.trans hlen, positions_of_holds t' h' _ L' hh1⟩
  · intro h0 cs e
    exact calls_some_intact cs TermFieldMatchData.new t h0 h
      (Or.inl ⟨new_isMultiPos, Nat.zero_le 1, new_isRawScore⟩) e
  · intro t' h' e
    have hh := holds_appendPositions (ps.take k) (t.reset d) t' h h' [] (holds_reset t h d) e
    rw [List.nil_append] at hh
    obtain ⟨hs, hp⟩ := positions_of_Holds t' h' _ hh
    exact ⟨hs.trans hlen, hp⟩

/-- C2 as amended, on a record left in heap mode by an earlier document: three
occurrences after the `reset`, the third of which makes the array of two cells grow. -/
theorem C2_growth_correctness_witness :
    3 ≤ ([⟨1, 2, 3, 4⟩, ⟨5, 6, 7, 8⟩, ⟨9, 10, 11, 12⟩]
        : List TermFieldMatchDataPosition).length
      ∧ ∃ t' h',
          (({ _docId := 0, _fieldId := 24575, _sz := 2,
              _data := 316912650057057367966361976841 } : TermFieldMatchData).reset
                5).appendPositions
              ⟨4144, [(4096, [⟨1, 2, 3, 4⟩, ⟨5, 6, 7, 9⟩])]⟩
              (([⟨1, 2, 3, 4⟩, ⟨5, 6, 7, 8⟩, ⟨9, 10, 11, 12⟩]
                : List TermFieldMatchDataPosition).take 3) = some (t', h')
            ∧ t'.size = 3
            ∧ t'.positions h' = some (([⟨1, 2, 3, 4⟩, ⟨5, 6, 7, 8⟩, ⟨9, 10, 11, 12⟩]
                : List TermFieldMatchDataPosition).take 3) :=
  ⟨by decide,
    (C2_growth_correctness
      { _docId := 0, _fieldId := 24575, _sz := 2, _data := 316912650057057367966361976841 }
      ⟨4144, [(4096, [⟨1, 2, 3, 4⟩, ⟨5, 6, 7, 9⟩])]⟩ 5
      [⟨1, 2, 3, 4⟩, ⟨5, 6, 7, 8⟩, ⟨9, 10, 11, 12⟩] 3 (by decide)).1 (by decide)
      (Or.inr ⟨by decide, [⟨1, 2, 3, 4⟩, ⟨5, 6, 7, 9⟩], 2,
        ⟨by decide, rfl, by decide, by decide, [⟨1, 2, 3, 4⟩, ⟨5, 6, 7, 9⟩], by decide, rfl,
          rfl⟩, by decide⟩)⟩

/-- C3: for every record and every field id below the reserved boundary `FIELDID_MASK`
(`FIELDID_MASK - 1` included), `setFieldId(id)` passes its assertion and `getFieldId()`
then returns `id`; and `setFieldId(IllegalFieldId)` makes `getFieldId()` return
`IllegalFieldId`. -/
theorem C3_field_id_round_trip (IllegalFieldId : uint32_t) (t : TermFieldMatchData)
    (id : uint32_t) (hid : id.val < FIELDID_MASK ∨ id = IllegalFieldId) :
    ∃ t', setFieldId IllegalFieldId t id = some t'
      ∧ getFieldId IllegalFieldId t' = id.val := by
  have hM : FIELDID_MASK = 8191 := rfl
  by_cases hI : id = IllegalFieldId
  · refine ⟨_, by rw [setFieldId, if_pos hI], ?_⟩
    simp only [getFieldId, and_mask]
    rw [hM, mask_of_setFieldId _ 8191 (by omega)]
    simp [hI]
  · have hlt : id.val < FIELDID_MASK := by
      rcases hid with h | h
      · exact h
      · exact absurd h hI
    refine ⟨_, by rw [setFieldId, if_neg hI, if_pos hlt], ?_⟩
    simp only [getFieldId, and_mask]
    rw [hM] at hlt ⊢
    rw [mask_of_setFieldId _ id.val (by omega)]
    have hne : id.val ≠ 8191 := by omega
    simp [hne]

/-- C3 at the largest legal id, `FIELDID_MASK - 1`, on a new record, the illegal id being
the all-ones word. -/
theorem C3_field_id_round_trip_witness :
    ((8190 : uint32_t).val < FIELDID_MASK ∨ (8190 : uint32_t) = 4294967295)
      ∧ ∃ t', setFieldId 4294967295 TermFieldMatchData.new 8190 = some t'
        ∧ getFieldId 4294967295 t' = (8190 : uint32_t).val :=
  ⟨Or.inl (by decide),
    C3_field_id_round_trip 4294967295 TermFieldMatchData.new 8190 (Or.inl (by decide))⟩

/-- C4: for every record, doc id `d` and score `s`, after `setRawScore(d, s)`
`getRawScore()` returns `s` and `getDocId()` returns `d`; and `getRawScore()` is `0.0` on
every record whose raw-score bit is clear. -/
theorem C4_raw_score_round_trip (t : TermFieldMatchData) (d : uint32_t) (s : feature_t) :
    ((t.setRawScore d s).getRawScore = s.val ∧ (t.setRawScore d s).getDocId = d.val)
      ∧ (t.isRawScore = false → t.getRawScore = 0) := by
  refine ⟨⟨?_, rfl⟩, ?_⟩
  · rw [getRawScore, setRawScore_isRawScore, if_pos rfl]
    show Features._rawScore (Features.set_rawScore _ s.val) = s.val
    rw [Features.rawScore_set_rawScore]
    omega
  · intro h
    rw [getRawScore, h]
    rfl

/-- C4 on a new record: its raw-score bit is clear and `getRawScore()` is `0.0`. -/
theorem C4_raw_score_round_trip_witness :
    TermFieldMatchData.new.isRawScore = false ∧ TermFieldMatchData.new.getRawScore = 0 :=
  ⟨new_isRawScore, (C4_raw_score_round_trip TermFieldMatchData.new 0 0).2 new_isRawScore⟩

/-- C5, refuted as stated: a new record that is reset and takes one occurrence keeps that
occurrence through `setRawScore(7, 3)`: `size()` is still 1, `end()` is `getFixed() + 1`
and `begin()` is `getFixed()`. -/
theorem C5_counterexample :
    ((TermFieldMatchData.new.reset 0).appendPosition ⟨4096, []⟩ ⟨1, 2, 3, 4⟩).map
        (fun r => ((r.1.setRawScore 7 3).size, (r.1.setRawScore 7 3).begin,
          (r.1.setRawScore 7 3).end_, ((r.1.setRawScore 7 3).positions r.2).map List.length))
      = some (1, .fixed 0, .fixed 1, some 1)
    ∧ PositionsIterator.fixed 1 ≠ PositionsIterator.fixed 0 := by
  decide

/-- C5 as amended: `setRawScore(d, s)` leaves the count as it is, so for every record
without occurrences (`size() == 0`, as after `reset`), inline or in heap mode, the range
after `setRawScore(d, s)` is empty: `end() == begin()` and no occurrence is read. -/
theorem C5_raw_score_range_empty (t : TermFieldMatchData) (h : FreeStore) (d : uint32_t)
    (s : feature_t) (hsz : t.size = 0) :
    (t.setRawScore d s).size = t.size
      ∧ (t.setRawScore d s).end_ = (t.setRawScore d s).begin
      ∧ (t.setRawScore d s).positions h = some [] :=
  ⟨rfl, end_eq_begin_of_sz_zero _ hsz, positions_of_sz_zero _ h hsz⟩

/-- C5 as amended, on a record that has just been reset. -/
theorem C5_raw_score_range_empty_witness :
    (TermFieldMatchData.new.reset 1).size = 0
      ∧ ((TermFieldMatchData.new.reset 1).setRawScore 2 3).size
          = (TermFieldMatchData.new.reset 1).size
      ∧ ((TermFieldMatchData.new.reset 1).setRawScore 2 3).end_
          = ((TermFieldMatchData.new.reset 1).setRawScore 2 3).begin
      ∧ ((TermFieldMatchData.new.reset 1).setRawScore 2 3).positions ⟨4096, []⟩ = some [] :=
  ⟨reset_sz _ 1,
    C5_raw_score_range_empty (TermFieldMatchData.new.reset 1) ⟨4096, []⟩ 2 3 (reset_sz _ 1)⟩

/-- C6: for every record, whatever it held before, `getSubqueries()` returns 0 after
`setRawScore(d, s)`; more generally `getSubqueries()` returns 0 on every record that is
not empty or has the raw-score bit set. -/
theorem C6_subqueries_zero_under_raw_score (t : TermFieldMatchData) (d : uint32_t)
    (s : feature_t) :
    (t.setRawScore d s).getSubqueries = 0
      ∧ (t.empty = false ∨ t.isRawScore = true → t.getSubqueries = 0) := by
  constructor
  · rw [getSubqueries, setRawScore_isRawScore]
    simp
  · intro h
    rw [getSubqueries]
    rcases h with h | h <;> simp [h]

/-- C6 on a record on which `setSubqueries` stored a non-zero bitmap before the raw
score bit was set. -/
theorem C6_subqueries_zero_under_raw_score_witness :
    (((TermFieldMatchData.new.setSubqueries 1 5).enableRawScore.empty = false
        ∨ (TermFieldMatchData.new.setSubqueries 1 5).enableRawScore.isRawScore = true)
      ∧ (TermFieldMatchData.new.setSubqueries 1 5).enableRawScore.getSubqueries = 0) :=
  ⟨Or.inr (enableRawScore_isRawScore _),
    (C6_subqueries_zero_under_raw_score
      (TermFieldMatchData.new.setSubqueries 1 5).enableRawScore 0 0).2
      (Or.inr (enableRawScore_isRawScore _))⟩

/-- C7: for every record that is empty (`count == 0`) and not in raw-score mode, every doc
id `d` and every 64-bit bitmap `b`, after `setSubqueries(d, b)` `getSubqueries()` returns
`b`, `getDocId()` returns `d` and `size()` is still 0. -/
theorem C7_subqueries_round_trip (t : TermFieldMatchData) (d : uint32_t) (b : uint64_t)
    (hsz : t._sz = 0) (hr : t.isRawScore = false) :
    (t.setSubqueries d b).getSubqueries = b.val
      ∧ (t.setSubqueries d b).getDocId = d.val
      ∧ (t.setSubqueries d b).size = 0 := by
  refine ⟨?_, rfl, hsz⟩
  have he : (t.setSubqueries d b).empty = true := by
    show (t._sz == 0) = true
    simp [hsz]
  have hr2 : (t.setSubqueries d b).isRawScore = false := hr
  rw [getSubqueries, he, hr2]
  show Features._subqueries (Features.set_subqueries _ b.val) = b.val
  rw [Features.subqueries_set_subqueries]
  omega

/-- C7 on a new record with the all-ones bitmap. -/
theorem C7_subqueries_round_trip_witness :
    TermFieldMatchData.new._sz = 0 ∧ TermFieldMatchData.new.isRawScore = false
      ∧ (TermFieldMatchData.new.setSubqueries 7 18446744073709551615).getSubqueries
          = (18446744073709551615 : uint64_t).val
      ∧ (TermFieldMatchData.new.setSubqueries 7 18446744073709551615).getDocId
          = (7 : uint32_t).val
      ∧ (TermFieldMatchData.new.setSubqueries 7 18446744073709551615).size = 0 :=
  ⟨rfl, new_isRawScore,
    C7_subqueries_round_trip TermFieldMatchData.new 7 18446744073709551615 rfl
      new_isRawScore⟩

/-- C8, refuted as stated: on a new record, after `setRawScore(1, 2)` and `reset(3)` the
raw-score bit is still set, and `getSubqueries()` after `setSubqueries(4, 5)` returns 0,
not 5. -/
theorem C8_counterexample :
    ((TermFieldMatchData.new.setRawScore 1 2).reset 3).isRawScore = true
      ∧ (((TermFieldMatchData.new.setRawScore 1 2).reset 3).setSubqueries 4 5).getSubqueries
          = 0
      ∧ (((TermFieldMatchData.new.setRawScore 1 2).reset 3).setSubqueries 4 5).getSubqueries
          ≠ (5 : uint64_t).val := by
  decide

/-- C8 as amended: no operation clears the raw-score bit. For every record, after
`setRawScore(d, s)` (or `enableRawScore()`) followed by `reset(d2)` the raw-score bit is
still set; `reset` has zeroed the stored score, so `getRawScore()` returns `0.0`, `size()`
is 0 and `getDocId()` is `d2`; and `getSubqueries()` after a following
`setSubqueries(d3, b)` returns 0. -/
theorem C8_reset_keeps_raw_score_mode (t : TermFieldMatchData) (d d2 d3 : uint32_t)
    (s : feature_t) (b : uint64_t) :
    (((t.setRawScore d s).reset d2).isRawScore = true
        ∧ ((t.setRawScore d s).reset d2).getRawScore = 0
        ∧ ((t.setRawScore d s).reset d2).size = 0
        ∧ ((t.setRawScore d s).reset d2).getDocId = d2.val
        ∧ (((t.setRawScore d s).reset d2).setSubqueries d3 b).getSubqueries = 0)
      ∧ ((t.enableRawScore.reset d2).isRawScore = true
        ∧ (t.enableRawScore.reset d2).getRawScore = 0
        ∧ ((t.enableRawScore.reset d2).setSubqueries d3 b).getSubqueries = 0) := by
  have key : ∀ u : TermFieldMatchData, u.isRawScore = true →
      (u.reset d2).isRawScore = true ∧ (u.reset d2).getRawScore = 0
        ∧ ((u.reset d2).setSubqueries d3 b).getSubqueries = 0 := by
    intro u hu
    have h1 : (u.reset d2).isRawScore = true := by rw [reset_isRawScore, hu]
    refine ⟨h1, ?_, ?_⟩
    · rw [getRawScore, h1, if_pos rfl, reset_data_of_rawScore u d2 hu,
        Features.rawScore_set_rawScore]
    · have h2 : ((u.reset d2).setSubqueries d3 b).isRawScore = true := h1
      rw [getSubqueries, h2]
      simp
  have k1 := key _ (setRawScore_isRawScore t d s)
  have k2 := key _ (enableRawScore_isRawScore t)
  exact ⟨⟨k1.1, k1.2.1, reset_sz _ d2, reset_docId _ d2, k1.2.2⟩, k2⟩

/-- C9: for every record in any state and every doc id `d`, after `reset(d)`
`getDocId()` returns `d`, `size()` is 0, the range `[begin(), end())` is empty,
`getWeight()` returns 1 and `getRawScore()` returns `0.0`. -/
theorem C9_reset_postcondition (t : TermFieldMatchData) (h : FreeStore) (d : uint32_t) :
    (t.reset d).getDocId = d.val
      ∧ (t.reset d).size = 0
      ∧ (t.reset d).end_ = (t.reset d).begin
      ∧ (t.reset d).positions h = some []
      ∧ (t.reset d).getWeight h = some 1
      ∧ (t.reset d).getRawScore = 0 := by
  have hsz := reset_sz t d
  refine ⟨reset_docId t d, hsz, end_eq_begin_of_sz_zero _ hsz,
    positions_of_sz_zero _ h hsz, ?_, ?_⟩
  · rw [getWeight, if_pos hsz]
  · rw [getRawScore, reset_isRawScore]
    cases hr : t.isRawScore
    · rfl
    · rw [if_pos rfl, reset_data_of_rawScore t d hr, Features.rawScore_set_rawScore]

/-- C10, refuted as stated: a record whose raw-score bit is set is put in heap mode by
its second `appendPosition`, with `capacity()` 2; the next `reset` zeroes the raw score,
which shares its bytes with the array header, so `capacity()` is 0 afterwards and the
following `appendPosition` finds no array. -/
theorem C10_counterexample :
    ((TermFieldMatchData.new.enableRawScore.reset 0).appendPositions ⟨4096, []⟩
          [⟨1, 2, 3, 4⟩, ⟨5, 6, 7, 8⟩]).map
        (fun r => (r.1.isMultiPos, r.1.capacity, (r.1.reset 1).isMultiPos,
          (r.1.reset 1).capacity, ((r.1.reset 1).appendPosition r.2 ⟨1, 2, 3, 4⟩).isSome))
      = some (true, 2, true, 0, false) := by
  decide

/-- C10 as amended: once a second `appendPosition` has put a record whose raw-score bit
is clear in heap mode, every later sequence of `reset` and `appendPosition` calls in which
no document takes more occurrences than the 16-bit count holds succeeds, and after every
later sequence of successful `reset` and `appendPosition` calls the multiPosition bit is
set and `capacity()` has not decreased; in particular after `reset(d)` followed by a
single `appendPosition(p)` the record is still in heap mode, `capacity()` equals its value
before the reset, and the range holds exactly `p`. -/
theorem C10_sticky_heap (t1 : TermFieldMatchData) (h1 : FreeStore)
    (p2 : TermFieldMatchDataPosition) (hsz : t1._sz = 1)
    (hm : t1.isMultiPos = false) (hr : t1.isRawScore = false) :
    ∃ t2 h2, t1.appendPosition h1 p2 = some (t2, h2) ∧ t2.isMultiPos = true
      ∧ (∀ cs, withinLimit 65535 2 cs = true → ∃ t h, calls t2 h2 cs = some (t, h))
      ∧ ∀ cs1 cs2 t h t' h', calls t2 h2 cs1 = some (t, h) →
          calls t h cs2 = some (t', h') →
          t.isMultiPos = true ∧ t'.isMultiPos = true
            ∧ t2.capacity ≤ t.capacity ∧ t.capacity ≤ t'.capacity
            ∧ ∀ (d : uint32_t) (p : TermFieldMatchDataPosition),
                ∃ u g, (t.reset d).appendPosition h p = some (u, g) ∧ u.isMultiPos = true
                  ∧ u.capacity = t.capacity ∧ u.positions g = some [p] := by
  obtain ⟨t2, h2, e2, hh2, -, hr2⟩ := appendPosition_second_holds t1 h1 p2 hsz hm
  refine ⟨t2, h2, e2, hh2.1, ?_, ?_⟩
  · intro cs hw
    exact calls_of_holds cs t2 h2 _ 2 hh2 (by omega) (hr2.trans hr) hw
  · intro cs1 cs2 t h t' h' e3 e4
    obtain ⟨xs, L, hh3, hle3, hr3⟩ :=
      calls_some_of_holds cs1 t2 t h2 h _ 2 hh2 (by omega) (hr2.trans hr) e3
    obtain ⟨xs', L', hh4, hle4, -⟩ :=
      calls_some_of_holds cs2 t t' h h' xs L hh3 (by omega) hr3 e4
    have c2 : t2.capacity = 2 := capacity_of_holds t2 h2 _ 2 hh2
    have c3 : t.capacity = L := capacity_of_holds t h xs L hh3
    have c4 : t'.capacity = L' := capacity_of_holds t' h' xs' L' hh4
    refine ⟨hh3.1, hh4.1, by omega, by omega, ?_⟩
    intro d p
    have hh5 := reset_holds t h xs L d hh3 hr3
    obtain ⟨u, g, e6, hh6, -, -⟩ :=
      appendPositionToAllocatedVector_of_holds (t.reset d) h [] L p hh5 (by omega)
        (by simp)
    have hL6 : (if ([] : List TermFieldMatchDataPosition).length = L
        then min (2 * L) 65535 else L) = L := by
      rw [if_neg]
      simp
      omega
    rw [hL6] at hh6
    refine ⟨u, g, ?_, hh6.1, ?_, ?_⟩
    · rw [appendPosition_heap _ h p hh5.1]
      exact e6
    · rw [capacity_of_holds u g _ L hh6, c3]
    · rw [positions_of_holds u g _ L hh6]
      rfl

/-- C10 as amended, on a record holding one inline occurrence, which a second occurrence
puts in heap mode. -/
theorem C10_sticky_heap_witness :
    (({ _docId := 0, _fieldId := 8191, _sz := 1, _data := 0 } : TermFieldMatchData)._sz = 1
      ∧ ({ _docId := 0, _fieldId := 8191, _sz := 1, _data := 0 }
          : TermFieldMatchData).isMultiPos = false
      ∧ ({ _docId := 0, _fieldId := 8191, _sz := 1, _data := 0 }
          : TermFieldMatchData).isRawScore = false)
      ∧ ∃ t2 h2,
          ({ _docId := 0, _fieldId := 8191, _sz := 1, _data := 0 }
              : TermFieldMatchData).appendPosition ⟨4096, []⟩ ⟨9, 10, 11, 12⟩ = some (t2, h2)
            ∧ t2.isMultiPos = true
            ∧ (∀ cs, withinLimit 65535 2 cs = true → ∃ t h, calls t2 h2 cs = some (t, h))
            ∧ ∀ cs1 cs2 t h t' h', calls t2 h2 cs1 = some (t, h) →
                calls t h cs2 = some (t', h') →
                t.isMultiPos = true ∧ t'.isMultiPos = true
                  ∧ t2.capacity ≤ t.capacity ∧ t.capacity ≤ t'.capacity
                  ∧ ∀ (d : uint32_t) (p : TermFieldMatchDataPosition),
                      ∃ u g, (t.reset d).appendPosition h p = some (u, g)
                        ∧ u.isMultiPos = true ∧ u.capacity = t.capacity
                        ∧ u.positions g = some [p] :=
  ⟨⟨rfl, by decide, by decide⟩,
    C10_sticky_heap { _docId := 0, _fieldId := 8191, _sz := 1, _data := 0 } ⟨4096, []⟩
      ⟨9, 10, 11, 12⟩ rfl (by decide) (by decide)⟩

/-- C11: for every record, `tagAsNotNeeded()` makes `isNotNeeded()` true and
`tagAsNeeded()` makes it false, and both leave the doc id, the count, the raw-score and
multiPosition bits, the field id returned by `getFieldId()` and the payload unchanged. -/
theorem C11_not_needed_flag (IllegalFieldId : uint32_t) (t : TermFieldMatchData) :
    (t.tagAsNotNeeded.isNotNeeded = true ∧ t.tagAsNeeded.isNotNeeded = false)
      ∧ (t.tagAsNotNeeded._docId = t._docId ∧ t.tagAsNotNeeded._sz = t._sz
        ∧ t.tagAsNotNeeded.isRawScore = t.isRawScore
        ∧ t.tagAsNotNeeded.isMultiPos = t.isMultiPos
        ∧ getFieldId IllegalFieldId t.tagAsNotNeeded = getFieldId IllegalFieldId t
        ∧ t.tagAsNotNeeded._data = t._data)
      ∧ (t.tagAsNeeded._docId = t._docId ∧ t.tagAsNeeded._sz = t._sz
        ∧ t.tagAsNeeded.isRawScore = t.isRawScore
        ∧ t.tagAsNeeded.isMultiPos = t.isMultiPos
        ∧ getFieldId IllegalFieldId t.tagAsNeeded = getFieldId IllegalFieldId t
        ∧ t.tagAsNeeded._data = t._data) := by
  have b1 : ∀ j, t.tagAsNotNeeded._fieldId.testBit j
      = (decide (j < 16) && (t._fieldId.testBit j || decide (13 = j))) :=
    fun j => testBit_or_2000 _ j
  have b2 : ∀ j, t.tagAsNeeded._fieldId.testBit j
      = (decide (j < 16) && (t._fieldId.testBit j && !decide (13 = j))) :=
    fun j => testBit_and_not_2000 _ j
  refine ⟨⟨?_, ?_⟩, ⟨rfl, rfl, ?_, ?_, ?_, rfl⟩, ⟨rfl, rfl, ?_, ?_, ?_, rfl⟩⟩
  · rw [isNotNeeded_eq, b1]
    simp
  · rw [isNotNeeded_eq, b2]
    simp
  · exact isRawScore_congr _ _ (by rw [b1]; simp)
  · exact isMultiPos_congr _ _ (by rw [b1]; simp)
  · apply getFieldId_congr
    apply mod_8192_of_testBit
    intro i hi
    have h1 : i < 16 := by omega
    have h2 : ¬ (13 = i) := by omega
    rw [b1]
    simp [h1, h2]
  · exact isRawScore_congr _ _ (by rw [b2]; simp)
  · exact isMultiPos_congr _ _ (by rw [b2]; simp)
  · apply getFieldId_congr
    apply mod_8192_of_testBit
    intro i hi
    have h1 : i < 16 := by omega
    have h2 : ¬ (13 = i) := by omega
    rw [b2]
    simp [h1, h2]

/-- C12: a default-constructed record on which `reset` was never called has `size()` 0,
`getWeight()` 1, `getRawScore()` `0.0`, an empty range `[begin(), end())`, neither mode
bit set, and `getFieldId()` equal to the illegal-field sentinel. -/
theorem C12_empty_record_defaults (IllegalFieldId : uint32_t) (h : FreeStore) :
    TermFieldMatchData.new.size = 0
      ∧ TermFieldMatchData.new.getWeight h = some 1
      ∧ TermFieldMatchData.new.getRawScore = 0
      ∧ TermFieldMatchData.new.end_ = TermFieldMatchData.new.begin
      ∧ TermFieldMatchData.new.positions h = some []
      ∧ TermFieldMatchData.new.isRawScore = false
      ∧ TermFieldMatchData.new.isMultiPos = false
      ∧ getFieldId IllegalFieldId TermFieldMatchData.new = IllegalFieldId.val := by
  have hsz : TermFieldMatchData.new._sz = 0 := rfl
  refine ⟨rfl, ?_, ?_, end_eq_begin_of_sz_zero _ hsz, positions_of_sz_zero _ h hsz,
    new_isRawScore, new_isMultiPos, ?_⟩
  · rw [getWeight, if_pos hsz]
  · rw [getRawScore, new_isRawScore]
    rfl
  · have e : TermFieldMatchData.new._fieldId % 8192 = 8191 := by decide
    simp only [getFieldId, and_mask, e]
    have hM : FIELDID_MASK = 8191 := rfl
    simp [hM]

/-- C13, refuted as stated: on a new record put in raw-score mode, `getRawScore()` after
`setSubqueries(1, 5)` returns the value whose 64-bit image is 5, not `0.0`; the same
after `setRawScore(1, 2)`, `reset(3)` and `setSubqueries(4, 5)`. -/
theorem C13_counterexample :
    (TermFieldMatchData.new.enableRawScore.setSubqueries 1 5).getRawScore = 5
      ∧ (((TermFieldMatchData.new.setRawScore 1 2).reset 3).setSubqueries 4 5).getRawScore
          = 5
      ∧ (5 : Nat) ≠ 0 := by
  decide

/-- C13 as amended: `setSubqueries` does not touch the mode bits. For every record whose
raw-score bit is clear, every doc id `d` and every bitmap `b`, `getRawScore()` after
`setSubqueries(d, b)` returns `0.0`; on a record whose raw-score bit is set it returns
the value whose 64-bit image is `b`, the bitmap and the raw score being the same bytes. -/
theorem C13_raw_score_after_subqueries (t : TermFieldMatchData) (d : uint32_t)
    (b : uint64_t) :
    (t.isRawScore = false → (t.setSubqueries d b).getRawScore = 0)
      ∧ (t.isRawScore = true → (t.setSubqueries d b).getRawScore = b.val) := by
  have hr : (t.setSubqueries d b).isRawScore = t.isRawScore := rfl
  constructor
  · intro h
    rw [getRawScore, hr, h]
    rfl
  · intro h
    rw [getRawScore, hr, h, if_pos rfl]
    show Features._subqueries (Features.set_subqueries t._data b.val) = b.val
    rw [Features.subqueries_set_subqueries]
    omega

/-- C13 as amended, on a new record and on one put in raw-score mode. -/
theorem C13_raw_score_after_subqueries_witness :
    (TermFieldMatchData.new.isRawScore = false
        ∧ (TermFieldMatchData.new.setSubqueries 1 5).getRawScore = 0)
      ∧ (TermFieldMatchData.new.enableRawScore.isRawScore = true
        ∧ (TermFieldMatchData.new.enableRawScore.setSubqueries 1 5).getRawScore
            = (5 : uint64_t).val) :=
  ⟨⟨new_isRawScore,
      (C13_raw_score_after_subqueries TermFieldMatchData.new 1 5).1 new_isRawScore⟩,
    ⟨enableRawScore_isRawScore _,
      (C13_raw_score_after_subqueries TermFieldMatchData.new.enableRawScore 1 5).2
        (enableRawScore_isRawScore _)⟩⟩

/-- C14, refuted as stated: the ids `0x1fff` and `0x2000` are below `0x3fff` and are not
the illegal sentinel `0xffffffff`, yet `setFieldId` fails its assertion on both. -/
theorem C14_counterexample :
    setFieldId 4294967295 TermFieldMatchData.new 8191 = none
      ∧ setFieldId 4294967295 TermFieldMatchData.new 8192 = none
      ∧ (8191 : uint32_t).val < 0x3fff ∧ (8192 : uint32_t).val < 0x3fff := by
  decide

/-- C14 as amended: the field id is a 13-bit value, the three upper bits of the 16-bit
word being the mode and tag bits. `setFieldId(id)` meets its precondition for every id
below the all-ones 13-bit pattern (`id < 0x1fff`) and `getFieldId()` then returns `id`;
`setFieldId` fails its precondition check exactly when `id` is not the illegal sentinel
and equals or exceeds that reserved pattern. -/
theorem C14_field_id_width (IllegalFieldId : uint32_t) (t : TermFieldMatchData)
    (id : uint32_t) :
    (id.val < 0x1fff → ∃ t', setFieldId IllegalFieldId t id = some t'
        ∧ getFieldId IllegalFieldId t' = id.val)
      ∧ (setFieldId IllegalFieldId t id = none ↔ id ≠ IllegalFieldId ∧ 0x1fff ≤ id.val) := by
  have hM : FIELDID_MASK = 0x1fff := rfl
  constructor
  · intro hlt
    have hM : FIELDID_MASK = 8191 := rfl
    by_cases hI : id = IllegalFieldId
    · refine ⟨_, by rw [setFieldId, if_pos hI], ?_⟩
      simp only [getFieldId, and_mask]
      rw [hM, mask_of_setFieldId _ 8191 (by omega)]
      simp [hI]
    · have hlt' : id.val < FIELDID_MASK := by rw [hM]; exact hlt
      refine ⟨_, by rw [setFieldId, if_neg hI, if_pos hlt'], ?_⟩
      simp only [getFieldId, and_mask]
      rw [hM, mask_of_setFieldId _ id.val (by omega)]
      have hne : id.val ≠ 8191 := by omega
      simp [hne]
  · unfold setFieldId
    by_cases hI : id = IllegalFieldId
    · simp [hI]
    · by_cases hlt : id.val < FIELDID_MASK
      · rw [if_neg hI, if_pos hlt]
        rw [hM] at hlt
        simp
        intro _
        omega
      · rw [if_neg hI, if_neg hlt]
        rw [hM] at hlt
        simp [hI]
        omega

/-- C14 as amended, at the largest legal id `0x1ffe` and at the first refused one. -/
theorem C14_field_id_width_witness :
    ((8190 : uint32_t).val < 0x1fff
        ∧ ∃ t', setFieldId 4294967295 TermFieldMatchData.new 8190 = some t'
          ∧ getFieldId 4294967295 t' = (8190 : uint32_t).val)
      ∧ (setFieldId 4294967295 TermFieldMatchData.new 8191 = none
        ∧ (8191 : uint32_t) ≠ 4294967295 ∧ 0x1fff ≤ (8191 : uint32_t).val) :=
  ⟨⟨by decide, (C14_field_id_width 4294967295 TermFieldMatchData.new 8190).1 (by decide)⟩,
    ⟨(C14_field_id_width 4294967295 TermFieldMatchData.new 8191).2.mpr
        ⟨by decide, by decide⟩, by decide, by decide⟩⟩

/-- C15, refuted as stated: a new record is put in heap mode by two occurrences, with
`capacity()` 2; after `setRawScore(1, 2)` and `reset(3)` the multiPosition bit is still
set but `capacity()` is 0. -/
theorem C15_counterexample :
    ((TermFieldMatchData.new.reset 0).appendPositions ⟨4096, []⟩
          [⟨1, 2, 3, 4⟩, ⟨5, 6, 7, 8⟩]).map
        (fun r => (r.1.isMultiPos, r.1.capacity,
          ((r.1.setRawScore 1 2).reset 3).isMultiPos,
          ((r.1.setRawScore 1 2).reset 3).capacity))
      = some (true, 2, true, 0)
    ∧ (0 : Nat) ≠ 2 := by
  decide

/-- C15 as amended: for every record in heap mode and all `d`, `s`, `d2`, after
`setRawScore(d, s)` followed by `reset(d2)` the multiPosition bit is still set, but the
array header is lost: the raw score is stored over the bytes of `_maxElementLength`,
`_allocated` and the low half of the array pointer, so `capacity()` reads bytes 2..3 of
the score after `setRawScore` and is 0 after the `reset`. -/
theorem C15_capacity_under_raw_score (t : TermFieldMatchData) (d d2 : uint32_t)
    (s : feature_t) (hm : t.isMultiPos = true) :
    ((t.setRawScore d s).reset d2).isMultiPos = true
      ∧ (t.setRawScore d s).capacity = s.val / 65536 % 65536
      ∧ ((t.setRawScore d s).reset d2).capacity = 0 := by
  have h1 : (t.setRawScore d s).isMultiPos = true := by
    rw [setRawScore_isMultiPos, hm]
  have h2 : ((t.setRawScore d s).reset d2).isMultiPos = true := by
    rw [reset_isMultiPos, h1]
  refine ⟨h2, ?_, ?_⟩
  · rw [capacity_of_multiPos _ h1]
    exact Features.allocated_set_rawScore _ _
  · rw [capacity_of_multiPos _ h2,
      reset_data_of_rawScore _ d2 (setRawScore_isRawScore t d s),
      Features.allocated_set_rawScore_zero]

/-- C15 as amended, on a record whose id word has the multiPosition bit set. -/
theorem C15_capacity_under_raw_score_witness :
    ({ _docId := 0, _fieldId := 24575, _sz := 0, _data := 131072 }
        : TermFieldMatchData).isMultiPos = true
      ∧ ((({ _docId := 0, _fieldId := 24575, _sz := 0, _data := 131072 }
          : TermFieldMatchData).setRawScore 1 2).reset 3).isMultiPos = true
      ∧ (({ _docId := 0, _fieldId := 24575, _sz := 0, _data := 131072 }
          : TermFieldMatchData).setRawScore 1 2).capacity = (2 : feature_t).val / 65536 % 65536
      ∧ ((({ _docId := 0, _fieldId := 24575, _sz := 0, _data := 131072 }
          : TermFieldMatchData).setRawScore 1 2).reset 3).capacity = 0 :=
  ⟨by decide,
    C15_capacity_under_raw_score { _docId := 0, _fieldId := 24575, _sz := 0, _data := 131072 }
      1 3 2 (by decide)⟩

/-- C16, refuted as stated: on a new record, `reset(0)`, two `appendPosition` calls and
`setSubqueries(1, 0)` give a record in heap mode whose `size()` is 2 and whose
`capacity()` is 0: the bitmap is stored over the array header. -/
theorem C16_counterexample :
    (publicCalls 4294967295 TermFieldMatchData.new ⟨4096, []⟩
          [.reset 0, .appendPosition ⟨1, 2, 3, 4⟩, .appendPosition ⟨5, 6, 7, 8⟩,
            .setSubqueries 1 0]).map
        (fun r => (r.1.isMultiPos, r.1.size, r.1.capacity))
      = some (true, 2, 0)
    ∧ ¬ (2 ≤ 0) := by
  decide

/-- C16 as amended: for every record reached from a default-constructed one by any
sequence of successful public calls, if the multiPosition bit is clear then
`size() <= 1`, and the pointer difference `end() - begin()` equals `size()`. In heap mode
`size() <= capacity()` holds when no call of the sequence was a `setRawScore` or
`setSubqueries` that stored, over the bytes of the header member `_allocated` of a heap
record, a number below the count; and every such call, on any record, leaves a heap
record with `capacity() < size()`. -/
theorem C16_storage_invariant (IllegalFieldId : uint32_t) (h0 h : FreeStore)
    (cs : List PublicCall) (t : TermFieldMatchData)
    (e : publicCalls IllegalFieldId TermFieldMatchData.new h0 cs = some (t, h)) :
    (t.isMultiPos = false → t.size ≤ 1)
      ∧ PositionsIterator.distance t.begin t.end_ = some t.size
      ∧ (publicCallsKeepHeader IllegalFieldId TermFieldMatchData.new h0 cs = true →
          t.isMultiPos = true → t.size ≤ t.capacity)
      ∧ ∀ (c : PublicCall) (u : TermFieldMatchData) (g : FreeStore),
          publicCall IllegalFieldId t h c = some (u, g) → c.keepsHeader t = false →
          u.isMultiPos = true ∧ u.capacity < u.size := by
  have hA0 : TermFieldMatchData.new.isMultiPos = false → TermFieldMatchData.new._sz ≤ 1 :=
    fun _ => Nat.zero_le 1
  obtain ⟨i1, i2⟩ := publicCalls_invariant IllegalFieldId cs TermFieldMatchData.new t h0 h
    e hA0
  refine ⟨i1, distance_begin_end t i1, ?_,
    fun c u g ec hk => publicCall_header_lost IllegalFieldId c t u h g ec hk⟩
  intro hk hm
  rw [capacity_of_multiPos t hm]
  refine i2 hk ?_ hm
  intro hm0
  rw [new_isMultiPos] at hm0
  cases hm0

/-- C16 as amended, on a run that sets the field id, resets, appends two occurrences,
stores a bitmap whose bytes 2..3 read 3 over the header, and tags the record. -/
theorem C16_storage_invariant_witness :
    publicCalls 4294967295 TermFieldMatchData.new ⟨4096, []⟩
        [.setFieldId 7, .reset 0, .appendPosition ⟨1, 2, 3, 4⟩,
          .appendPosition ⟨5, 6, 7, 8⟩, .setSubqueries 1 196608, .tagAsNotNeeded]
      = some ({ _docId := 1, _fieldId := 24583, _sz := 2,
                _data := 316912650057057350374175997952 },
              ⟨4144, [(4096, [⟨1, 2, 3, 4⟩, ⟨5, 6, 7, 8⟩])]⟩)
    ∧ publicCallsKeepHeader 4294967295 TermFieldMatchData.new ⟨4096, []⟩
        [.setFieldId 7, .reset 0, .appendPosition ⟨1, 2, 3, 4⟩,
          .appendPosition ⟨5, 6, 7, 8⟩, .setSubqueries 1 196608, .tagAsNotNeeded] = true
    ∧ ({ _docId := 1, _fieldId := 24583, _sz := 2,
         _data := 316912650057057350374175997952 } : TermFieldMatchData).isMultiPos = true
    ∧ PositionsIterator.distance
        ({ _docId := 1, _fieldId := 24583, _sz := 2,
           _data := 316912650057057350374175997952 } : TermFieldMatchData).begin
        ({ _docId := 1, _fieldId := 24583, _sz := 2,
           _data := 316912650057057350374175997952 } : TermFieldMatchData).end_
      = some ({ _docId := 1, _fieldId := 24583, _sz := 2,
                _data := 316912650057057350374175997952 } : TermFieldMatchData).size
    ∧ ({ _docId := 1, _fieldId := 24583, _sz := 2,
         _data := 316912650057057350374175997952 } : TermFieldMatchData).size
      ≤ ({ _docId := 1, _fieldId := 24583, _sz := 2,
           _data := 316912650057057350374175997952 } : TermFieldMatchData).capacity :=
  ⟨by decide, by decide, by decide,
    (C16_storage_invariant 4294967295 ⟨4096, []⟩
      ⟨4144, [(4096, [⟨1, 2, 3, 4⟩, ⟨5, 6, 7, 8⟩])]⟩
      [.setFieldId 7, .reset 0, .appendPosition ⟨1, 2, 3, 4⟩,
        .appendPosition ⟨5, 6, 7, 8⟩, .setSubqueries 1 196608, .tagAsNotNeeded]
      { _docId := 1, _fieldId := 24583, _sz := 2, _data := 316912650057057350374175997952 }
      (by decide)).2.1,
    (C16_storage_invariant 4294967295 ⟨4096, []⟩
      ⟨4144, [(4096, [⟨1, 2, 3, 4⟩, ⟨5, 6, 7, 8⟩])]⟩
      [.setFieldId 7, .reset 0, .appendPosition ⟨1, 2, 3, 4⟩,
        .appendPosition ⟨5, 6, 7, 8⟩, .setSubqueries 1 196608, .tagAsNotNeeded]
      { _docId := 1, _fieldId := 24583, _sz := 2, _data := 316912650057057350374175997952 }
      (by decide)).2.2.1 (by decide) (by decide)⟩

/-- C17, refuted as stated, in two ways; in heap mode the header of the array keeps the
maximum in 16 bits. Two occurrences of element lengths 70000 and 8 are appended to a
freshly reset new record: `getIterator()` passes 4464, not 70000. And a record that took
two occurrences for an earlier document is reset and takes a single occurrence of element
length 70000: it is still in heap mode, and `getIterator()` passes 4464. -/
theorem C17_counterexample :
    (((TermFieldMatchData.new.reset 0).appendPositions ⟨4096, []⟩
          [⟨1, 2, 3, 70000⟩, ⟨5, 6, 7, 8⟩]).map
        (fun r => (getIterator 4294967295 r.1).len) = some 4464
      ∧ maxElementLen [⟨1, 2, 3, 70000⟩, ⟨5, 6, 7, 8⟩] = 70000)
    ∧ ((((TermFieldMatchData.new.reset 0).appendPositions ⟨4096, []⟩
            [⟨1, 2, 3, 4⟩, ⟨5, 6, 7, 8⟩]).bind
          (fun r => (r.1.reset 1).appendPositions r.2 [⟨1, 2, 3, 70000⟩])).map
        (fun r => (r.1.size, r.1.positions r.2, (getIterator 4294967295 r.1).len))
        = some (1, some [⟨1, 2, 3, 70000⟩], 4464)
      ∧ maxElementLen [⟨1, 2, 3, 70000⟩] = 70000) := by
  decide

/-- C17 as amended: for every `N >= 1` and every sequence `p1..pN` appended to a record
that has just been reset, whose element lengths are below 65536 when the record is in
heap mode afterwards (it took two or more occurrences, or was in heap mode before the
`reset`), the maximum element length passed by `getIterator()` is the largest element
length among `p1..pN`, or `UNKNOWN_LENGTH` when that maximum is 0; the appends succeed for
`N <= 65535` on a record that was inline or in heap mode with its raw-score bit clear and
its array header intact, as is every record reached from a new one by `reset` and
`appendPosition` calls; and for an empty record `getIterator()` passes
`UNKNOWN_LENGTH`. -/
theorem C17_iterator_element_length (UNKNOWN_LENGTH : Nat) (t : TermFieldMatchData)
    (h : FreeStore) (d : uint32_t) (ps : List TermFieldMatchDataPosition)
    (hN : 1 ≤ ps.length) :
    (∀ t' h', (t.reset d).appendPositions h ps = some (t', h') →
        (t'.isMultiPos = true → ∀ p, p ∈ ps → p.getElementLen < 65536) →
        (getIterator UNKNOWN_LENGTH t').len
          = (if maxElementLen ps = 0 then UNKNOWN_LENGTH else maxElementLen ps))
      ∧ (ps.length ≤ 65535 →
          (t.isMultiPos = false
            ∨ (t.isRawScore = false ∧ ∃ xs L, HoldsInHeap t h xs L ∧ 1 ≤ L)) →
          ∃ t' h', (t.reset d).appendPositions h ps = some (t', h'))
      ∧ (∀ h0 cs, calls TermFieldMatchData.new h0 cs = some (t, h) →
          t.isMultiPos = false
            ∨ (t.isRawScore = false ∧ ∃ xs L, HoldsInHeap t h xs L ∧ 1 ≤ L))
      ∧ ∀ t0 : TermFieldMatchData, t0.size = 0 →
          (getIterator UNKNOWN_LENGTH t0).len = UNKNOWN_LENGTH := by
  refine ⟨?_, ?_, fun h0 cs e => calls_some_intact cs TermFieldMatchData.new t h0 h
      (Or.inl ⟨new_isMultiPos, Nat.zero_le 1, new_isRawScore⟩) e,
    fun t0 ht => getIterator_len_of_empty UNKNOWN_LENGTH t0 ht⟩
  · intro t' h' e hlen
    refine getIterator_len_appendPositions UNKNOWN_LENGTH (t.reset d) t' h h' ps
      (reset_sz t d) ?_ e hN hlen
    intro hm
    rw [reset_isMultiPos] at hm
    exact reset_maxElementLength t d hm
  · intro hle hwf
    rcases hwf with hm | ⟨hr, xs, L, hh, hL⟩
    · have hm' : (t.reset d).isMultiPos = false := by rw [reset_isMultiPos, hm]
      obtain ⟨t', h', e, -⟩ :=
        appendPositions_of_empty (t.reset d) h ps (reset_sz _ d) hm' hle
      exact ⟨t', h', e⟩
    · have hh0 := reset_holds t h xs L d hh hr
      obtain ⟨t', h', L', e, -⟩ :=
        appendPositions_of_holds ps (t.reset d) h [] L hh0 hL (by simp; omega)
      exact ⟨t', h', e⟩

/-- C17 as amended, on a record left in heap mode by a document whose longest element had
length 9: after the `reset` one occurrence of element length 4 is appended, and
`getIterator()` passes 4. -/
theorem C17_iterator_element_length_witness :
    1 ≤ ([⟨1, 2, 3, 4⟩] : List TermFieldMatchDataPosition).length
      ∧ (({ _docId := 0, _fieldId := 24575, _sz := 2,
            _data := 316912650057057367966361976841 } : TermFieldMatchData).reset
              5).appendPositions
            ⟨4144, [(4096, [⟨1, 2, 3, 4⟩, ⟨5, 6, 7, 9⟩])]⟩ [⟨1, 2, 3, 4⟩]
          = some ({ _docId := 5, _fieldId := 24575, _sz := 1,
                    _data := 316912650057057367966361976836 },
                  ⟨4144, [(4096, [⟨1, 2, 3, 4⟩, ⟨5, 6, 7, 9⟩])]⟩)
      ∧ (getIterator 4294967295
            ({ _docId := 5, _fieldId := 24575, _sz := 1,
               _data := 316912650057057367966361976836 } : TermFieldMatchData)).len
          = (if maxElementLen [⟨1, 2, 3, 4⟩] = 0 then 4294967295
             else maxElementLen [⟨1, 2, 3, 4⟩]) :=
  ⟨by decide, by decide,
    (C17_iterator_element_length 4294967295
      { _docId := 0, _fieldId := 24575, _sz := 2, _data := 316912650057057367966361976841 }
      ⟨4144, [(4096, [⟨1, 2, 3, 4⟩, ⟨5, 6, 7, 9⟩])]⟩ 5 [⟨1, 2, 3, 4⟩] (by decide)).1
      { _docId := 5, _fieldId := 24575, _sz := 1, _data := 316912650057057367966361976836 }
      ⟨4144, [(4096, [⟨1, 2, 3, 4⟩, ⟨5, 6, 7, 9⟩])]⟩ (by decide) (fun _ => by decide)⟩

/-- C18: for every record with both mode bits clear and count 0, and all `d`, `b`, `d2`,
after `setSubqueries(d, b)` followed by `reset(d2)` `getSubqueries()` still returns `b`:
`reset` leaves the payload of such a record alone. The count before the calls plays no
part, `reset` sets it to 0. -/
theorem C18_reset_keeps_subqueries (t : TermFieldMatchData) (d d2 : uint32_t)
    (b : uint64_t) (hr : t.isRawScore = false) (hm : t.isMultiPos = false) :
    ((t.setSubqueries d b).reset d2).getSubqueries = b.val
      ∧ ((t.setSubqueries d b).reset d2).getDocId = d2.val := by
  have hr1 : (t.setSubqueries d b).isRawScore = false := hr
  have hm1 : (t.setSubqueries d b).isMultiPos = false := hm
  have hr2 : ((t.setSubqueries d b).reset d2).isRawScore = false := by
    rw [reset_isRawScore, hr1]
  have he : ((t.setSubqueries d b).reset d2).empty = true := by
    simp [TermFieldMatchData.empty, reset_sz]
  refine ⟨?_, reset_docId _ d2⟩
  rw [getSubqueries, he, hr2, reset_data_of_default _ d2 hr1 hm1]
  show Features._subqueries (Features.set_subqueries t._data b.val) = b.val
  rw [Features.subqueries_set_subqueries]
  omega

/-- C18 on a new record. -/
theorem C18_reset_keeps_subqueries_witness :
    TermFieldMatchData.new.isRawScore = false ∧ TermFieldMatchData.new.isMultiPos = false
      ∧ ((TermFieldMatchData.new.setSubqueries 1 5).reset 2).getSubqueries
          = (5 : uint64_t).val
      ∧ ((TermFieldMatchData.new.setSubqueries 1 5).reset 2).getDocId
          = (2 : uint32_t).val :=
  ⟨new_isRawScore, new_isMultiPos,
    C18_reset_keeps_subqueries TermFieldMatchData.new 1 2 5 new_isRawScore new_isMultiPos⟩

/-- C19: for every record and every id accepted by `setFieldId` (`id < FIELDID_MASK` or
`id == IllegalFieldId`), `setFieldId(id)` leaves the raw-score, multiPosition and
notNeeded bits, the doc id, the count and the payload unchanged, so `getRawScore()`,
`isNotNeeded()`, `size()` and the occurrence range are the same before and after. -/
theorem C19_setFieldId_frame (IllegalFieldId : uint32_t) (t : TermFieldMatchData)
    (h : FreeStore) (id : uint32_t)
    (hid : id.val < FIELDID_MASK ∨ id = IllegalFieldId) :
    ∃ t', setFieldId IllegalFieldId t id = some t'
      ∧ t'.isRawScore = t.isRawScore ∧ t'.isMultiPos = t.isMultiPos
      ∧ t'.isNotNeeded = t.isNotNeeded
      ∧ t'._docId = t._docId ∧ t'._sz = t._sz ∧ t'._data = t._data
      ∧ t'.getRawScore = t.getRawScore ∧ t'.size = t.size
      ∧ t'.begin = t.begin ∧ t'.end_ = t.end_ ∧ t'.positions h = t.positions h := by
  obtain ⟨t', e⟩ := setFieldId_accepts IllegalFieldId t id hid
  obtain ⟨hd, hs, hdat, hb⟩ := setFieldId_some IllegalFieldId t t' id e
  have hr := isRawScore_congr t t' (hb 15 (by omega) (by omega))
  have hm := isMultiPos_congr t t' (hb 14 (by omega) (by omega))
  have hn := isNotNeeded_congr t t' (hb 13 (by omega) (by omega))
  obtain ⟨r1, r2, r3, r4, r5, -, -, -⟩ := readers_congr t t' h hr hm hs hdat
  exact ⟨t', e, hr, hm, hn, hd, hs, hdat, r1, r2, r3, r4, r5⟩

/-- C19 on a record in raw-score mode that is tagged as not needed, at the largest legal
id. -/
theorem C19_setFieldId_frame_witness :
    ((8190 : uint32_t).val < FIELDID_MASK ∨ (8190 : uint32_t) = 4294967295)
      ∧ ∃ t', setFieldId 4294967295 (TermFieldMatchData.new.setRawScore 1 2).tagAsNotNeeded
            8190 = some t'
        ∧ t'.isRawScore = (TermFieldMatchData.new.setRawScore 1 2).tagAsNotNeeded.isRawScore
        ∧ t'.isMultiPos = (TermFieldMatchData.new.setRawScore 1 2).tagAsNotNeeded.isMultiPos
        ∧ t'.isNotNeeded
            = (TermFieldMatchData.new.setRawScore 1 2).tagAsNotNeeded.isNotNeeded
        ∧ t'._docId = (TermFieldMatchData.new.setRawScore 1 2).tagAsNotNeeded._docId
        ∧ t'._sz = (TermFieldMatchData.new.setRawScore 1 2).tagAsNotNeeded._sz
        ∧ t'._data = (TermFieldMatchData.new.setRawScore 1 2).tagAsNotNeeded._data
        ∧ t'.getRawScore
            = (TermFieldMatchData.new.setRawScore 1 2).tagAsNotNeeded.getRawScore
        ∧ t'.size = (TermFieldMatchData.new.setRawScore 1 2).tagAsNotNeeded.size
        ∧ t'.begin = (TermFieldMatchData.new.setRawScore 1 2).tagAsNotNeeded.begin
        ∧ t'.end_ = (TermFieldMatchData.new.setRawScore 1 2).tagAsNotNeeded.end_
        ∧ t'.positions ⟨4096, []⟩
            = (TermFieldMatchData.new.setRawScore 1 2).tagAsNotNeeded.positions ⟨4096, []⟩ :=
  ⟨Or.inl (by decide),
    C19_setFieldId_frame 4294967295 (TermFieldMatchData.new.setRawScore 1 2).tagAsNotNeeded
      ⟨4096, []⟩ 8190 (Or.inl (by decide))⟩

end search.fef
